import Mathlib

/-!
Shallow embedding of the oh_hell_rs game engine (src/models/game.rs,
src/models/iter.rs, src/models/mod.rs) and of the pure core of the lobby
manager's game-start path (src/services/manager.rs).

Conventions of the embedding:
* Rust `usize`/`u8`/`u16` arithmetic is modelled with `Nat`; no value in the
  engine ever approaches an overflow boundary, and the only subtraction
  (`player.lifes -= 1`) is guarded by `lifes > 0` at the call site exactly as
  in the source.
* A Rust panic (`expect`, `panic!`, out-of-range slice access, division by
  zero) is modelled as `Except.error msg` in the `Res` monad, with the
  source's message text.
* `IndexMap<String, Player>` is modelled as an insertion-ordered association
  list `List (String × Player)`; `IndexMap` iteration order is insertion
  order, `get` is lookup by key, `get_index` is positional access.
* `BinaryHeap<(u16, Turn)>` is modelled as a list kept sorted in descending
  `(value, turn)` order: `push` is sorted insertion, `pop`/`peek` take the
  head, and the first element of the vector produced by `iter` is the
  maximum, which is exactly the guarantee the source relies on when it reads
  `pile[0]` after `award_points`.
* `Card::shuffled_deck()` is a random permutation of the 40-card deck; every
  function that consumes a fresh shuffled deck takes the deck as an explicit
  parameter instead.
-/

namespace OhHell

/-- `Rank` from src/models/mod.rs, in declaration order. -/
inductive Rank where
  | Four | Five | Six | Seven | Ten | Eleven | Twelve | One | Two | Three
deriving DecidableEq, Repr, Fintype

/-- `Suit` from src/models/mod.rs, in declaration order. -/
inductive Suit where
  | Golds | Swords | Cups | Clubs
deriving DecidableEq, Repr, Fintype

/-- The discriminant of `Rank` (Rust `rank as u8`). -/
def Rank.val : Rank → Nat
  | .Four => 0 | .Five => 1 | .Six => 2 | .Seven => 3 | .Ten => 4
  | .Eleven => 5 | .Twelve => 6 | .One => 7 | .Two => 8 | .Three => 9

/-- The discriminant of `Suit` (Rust `suit as u8`). -/
def Suit.val : Suit → Nat
  | .Golds => 0 | .Swords => 1 | .Cups => 2 | .Clubs => 3

/-- `Rank::get_next` from src/models/mod.rs. -/
def Rank.get_next : Rank → Rank
  | .Four => .Five
  | .Five => .Six
  | .Six => .Seven
  | .Seven => .Ten
  | .Ten => .Eleven
  | .Eleven => .Twelve
  | .Twelve => .One
  | .One => .Two
  | .Two => .Three
  | .Three => .Four

/-- `Card` from src/models/mod.rs. -/
structure Card where
  rank : Rank
  suit : Suit
deriving DecidableEq, Repr

/-- `Card::get_value` from src/models/mod.rs: `rank as u8 * 10 + suit as u8`. -/
def Card.get_value (c : Card) : Nat :=
  c.rank.val * 10 + c.suit.val

/-- The derived `Ord` on `Card`: lexicographic on `(rank, suit)` by
discriminant, expressed as a strict-less Bool. -/
def Card.ltb (a b : Card) : Bool :=
  a.rank.val < b.rank.val || (a.rank.val = b.rank.val && a.suit.val < b.suit.val)

/-- Non-strict card comparison derived from `Card.ltb`. -/
def Card.leb (a b : Card) : Bool :=
  Card.ltb a b || a = b

/-- `Rank::iter()` order used by `Card::deck`. -/
def Rank.list : List Rank :=
  [.Four, .Five, .Six, .Seven, .Ten, .Eleven, .Twelve, .One, .Two, .Three]

/-- `Suit::iter()` order used by `Card::deck`. -/
def Suit.list : List Suit :=
  [.Golds, .Swords, .Cups, .Clubs]

/-- `Card::deck` from src/models/mod.rs: ranks outer, suits inner. -/
def Card.deck : List Card :=
  Rank.list.flatMap (fun r => Suit.list.map (fun s => ⟨r, s⟩))

/-- `Turn` from src/models/mod.rs. -/
structure Turn where
  player_id : String
  card : Card
deriving DecidableEq, Repr

/-- `Player` from src/models/mod.rs. -/
structure Player where
  lifes : Nat
  deck : List Card
  bid : Option Nat
  rounds : Nat
deriving DecidableEq, Repr

/-- `Player::new` from src/models/mod.rs. -/
def Player.new (deck : List Card) : Player :=
  { lifes := 5, deck := deck, bid := none, rounds := 0 }

/-- `CyclicIterator` from src/models/iter.rs. -/
structure CyclicIterator where
  items : List Nat
  current_index : Nat
deriving DecidableEq, Repr

namespace CyclicIterator

/-- `CyclicIterator::new`. -/
def new (count : Nat) : CyclicIterator :=
  { items := List.range count, current_index := 0 }

/-- `CyclicIterator::reset`. -/
def reset (c : CyclicIterator) : CyclicIterator :=
  { c with current_index := 0 }

/-- `CyclicIterator::shift`: reset, then `rotate_left(1)` when non-empty. -/
def shift (c : CyclicIterator) : CyclicIterator :=
  if c.items.isEmpty then c.reset
  else { items := c.items.rotate 1, current_index := 0 }

/-- `CyclicIterator::shift_to`: reset, then rotate so that `item` comes
first.  Rust rotates right by `len - idx`, which equals rotating left by
`idx`; when `item` is absent the `?` returns early but the reset has already
happened.  The `Option<()>` result is discarded by every caller. -/
def shift_to (c : CyclicIterator) (item : Nat) : CyclicIterator :=
  match c.items.findIdx? (· == item) with
  | none => c.reset
  | some idx => { items := c.items.rotate idx, current_index := 0 }

/-- `CyclicIterator::peek`. -/
def peek (c : CyclicIterator) : Option Nat :=
  c.items[c.current_index]?

/-- `CyclicIterator::peek_next`. -/
def peek_next (c : CyclicIterator) : Option Nat :=
  c.items[c.current_index + 1]?

/-- `CyclicIterator::remove`: drop `item` from the order, keep the cursor.
The `Option<usize>` result is discarded by every caller. -/
def remove (c : CyclicIterator) (item : Nat) : CyclicIterator :=
  match c.items.findIdx? (· == item) with
  | none => c
  | some idx => { c with items := c.items.eraseIdx idx }

/-- `Iterator::next` for `CyclicIterator`: yield the current item (if any)
and advance the cursor unconditionally. -/
def next (c : CyclicIterator) : Option Nat × CyclicIterator :=
  (c.items[c.current_index]?, { c with current_index := c.current_index + 1 })

end CyclicIterator

instance {ε α : Type} [DecidableEq ε] [DecidableEq α] : DecidableEq (Except ε α) :=
  fun a b =>
    match a, b with
    | .error x, .error y => decidable_of_iff (x = y) (by simp)
    | .ok x, .ok y => decidable_of_iff (x = y) (by simp)
    | .error _, .ok _ => isFalse (fun h => Except.noConfusion h)
    | .ok _, .error _ => isFalse (fun h => Except.noConfusion h)

/-- Panic-capable results: `Except.error msg` models a Rust panic with the
source's message. -/
abbrev Res (α : Type) := Except String α

/-- `BiddingError` from src/models/mod.rs. -/
inductive BiddingError where
  | InvalidPlayer | AlreadyBidded | DealingStageActive | NotYourTurn | BidOutOfRange
deriving DecidableEq, Repr

/-- `TurnError` from src/models/mod.rs; `NotYourTurn` carries the expected
dealer. -/
inductive TurnError where
  | BiddingStageActive
  | NotYourTurn (expected : Option String)
  | NotYourCard
  | InvalidPlayer
deriving DecidableEq, Repr

/-- `GameError` construction-failure variants from src/models/mod.rs. -/
inductive GameError where
  | NotEnoughPlayers | TooManyPlayers
deriving DecidableEq, Repr

/-- `BiddingState`, reconstructed from its uses in src/models/game.rs
(`BiddingState::Active { next, possible_bids }` / `BiddingState::Ended { next }`);
its declaration file is from another revision. -/
inductive BiddingState where
  | Active (next : String) (possible_bids : List Nat)
  | Ended (next : String)
deriving DecidableEq, Repr

/-- `GameEvent`, reconstructed from its uses in src/models/game.rs.  The
`HashMap<String, usize>` payloads are modelled as association lists in
`players` iteration order. -/
inductive GameEvent where
  | SetEnded (lifes : List (String × Nat)) (possible : List Nat) (next : String)
      (upcard : Card) (decks : List (String × List Card))
  | RoundEnded (next : String) (rounds : List (String × Nat))
  | Ended (winner : Option String) (lifes : List (String × Nat))
  | TurnPlayed (next : String)
deriving DecidableEq, Repr

/-- `DealState`, reconstructed from its uses in src/models/game.rs. -/
structure DealState where
  pile : List Turn
  event : GameEvent
deriving DecidableEq, Repr

/-- `PlayerInfoDto`, reconstructed from its construction in
`Game::get_game_info` (its declaring services file is from another revision);
`bid` is a plain `usize` filled by `p.bid.expect(..)`. -/
structure PlayerInfoDto where
  id : String
  lifes : Nat
  bid : Nat
  rounds : Nat
deriving DecidableEq, Repr

/-- `GameInfoDto`, reconstructed from its construction in
`Game::get_game_info`. -/
structure GameInfoDto where
  deck : List Card
  upcard : Card
  info : List PlayerInfoDto
  current_player : String
deriving DecidableEq, Repr

/-- `DealingMode` from src/models/mod.rs. -/
inductive DealingMode where
  | Increasing | Decreasing
deriving DecidableEq, Repr

/-- `CycleStage` from src/models/game.rs. -/
inductive CycleStage where
  | Dealing | Bidding
deriving DecidableEq, Repr

/-- `MAX_AVAILABLE_CARDS = 40 - 1` from src/models/game.rs. -/
def MAX_AVAILABLE_CARDS : Nat := 40 - 1

/-- `MAX_PLAYER_COUNT` from src/models/game.rs. -/
def MAX_PLAYER_COUNT : Nat := 13

/-- The heap order on pile entries: the derived `Ord` on `(u16, Turn)`,
lexicographic on the value and then on the card (`Turn`'s `Ord` compares
cards only). -/
def entry_le (a b : Nat × Turn) : Bool :=
  a.1 < b.1 || (a.1 = b.1 && Card.leb a.2.card b.2.card)

/-- `BinaryHeap::push`, on the sorted-descending list model: insert keeping
descending order, so the head stays the maximum. -/
def heap_push (pile : List (Nat × Turn)) (e : Nat × Turn) : List (Nat × Turn) :=
  match pile with
  | [] => [e]
  | x :: xs => if entry_le e x then x :: heap_push xs e else e :: x :: xs

/-- Descending sortedness of the pile model: every later entry is ≤ the
entry before it (the `BinaryHeap` invariant our list model maintains). -/
def pile_sorted : List (Nat × Turn) → Bool
  | [] => true
  | x :: xs => xs.all (fun y => entry_le y x) && pile_sorted xs

/-- `Game` from src/models/game.rs. -/
structure Game where
  players : List (String × Player)
  pile : List (Nat × Turn)
  dealing_mode : DealingMode
  bidding_iter : CyclicIterator
  round_iter : CyclicIterator
  cards_count : Nat
  upcard : Card
deriving DecidableEq, Repr

/-- `IndexMap::insert` on the association-list model: replace the value of an
existing key in place, otherwise append.  Used by the `collect()` into an
`IndexMap` in `init_players`. -/
def indexmap_insert (ps : List (String × Player)) (k : String) (v : Player) :
    List (String × Player) :=
  match ps with
  | [] => [(k, v)]
  | e :: rest => if e.1 = k then (k, v) :: rest else e :: indexmap_insert rest k v

/-- `IndexMap::get_mut` followed by a field update: rewrite the entry with the
given key (unique, since `IndexMap` keys are unique). -/
def map_player (ps : List (String × Player)) (id : String) (f : Player → Player) :
    List (String × Player) :=
  ps.map (fun e => if e.1 = id then (e.1, f e.2) else e)

namespace Game

/-- `Game::alive_players`: players with `lifes > 0`, in insertion order. -/
def alive_players (g : Game) : List (String × Player) :=
  g.players.filter (fun e => decide (0 < e.2.lifes))

/-- `Game::get_player`: the key at a position of the `IndexMap`; an invalid
index panics (`InvalidGameState: invalid player index`). -/
def get_player (g : Game) (idx : Nat) : Res String :=
  match g.players[idx]? with
  | some e => .ok e.1
  | none => .error "InvalidGameState: invalid player index"

/-- `Game::peek_current_dealer`. -/
def peek_current_dealer (g : Game) : Res (Option String) :=
  match g.round_iter.peek with
  | none => .ok none
  | some i =>
    match g.get_player i with
    | .ok p => .ok (some p)
    | .error m => .error m

/-- `Game::peek_current_bidder`. -/
def peek_current_bidder (g : Game) : Res (Option String) :=
  match g.bidding_iter.peek with
  | none => .ok none
  | some i =>
    match g.get_player i with
    | .ok p => .ok (some p)
    | .error m => .error m

/-- `Game::get_pile`: the heap's backing vector, mapped to turns; in the
sorted model the head is the maximum, which is the only property of the
iteration order the source relies on. -/
def get_pile (g : Game) : List Turn :=
  g.pile.map (fun e => e.2)

/-- The sum of recorded bids of alive players
(`alive_players().map(bid.unwrap_or_default()).sum()`). -/
def bid_sum (g : Game) : Nat :=
  ((g.alive_players).map (fun e => e.2.bid.getD 0)).sum

/-- `Game::makes_perfect_bidding_round`. -/
def makes_perfect_bidding_round (g : Game) (bid : Nat) (last : Bool) : Bool :=
  last && (bid + g.bid_sum == g.cards_count)

/-- `Game::validate_bid`. -/
def validate_bid (g : Game) (bid : Nat) : Bool :=
  let last := g.bidding_iter.peek_next.isNone
  bid ≤ g.cards_count && !(g.makes_perfect_bidding_round bid last)

/-- `Game::get_cycle_stage`: Bidding iff some alive player has no bid. -/
def get_cycle_stage (g : Game) : CycleStage :=
  if (g.alive_players).any (fun e => e.2.bid.isNone) then .Bidding else .Dealing

/-- `Game::get_possible_bids`. -/
def get_possible_bids (g : Game) : List Nat :=
  let last := g.bidding_iter.peek_next.isNone
  if last then
    (List.range (g.cards_count + 1)).filter
      (fun i => !(g.makes_perfect_bidding_round i last))
  else
    List.range (g.cards_count + 1)

/-- `Game::get_bidding_player`: panics when the bidding cursor is exhausted. -/
def get_bidding_player (g : Game) : Res String :=
  match g.bidding_iter.peek with
  | none => .error "InvalidGameState getting bid player"
  | some i => g.get_player i

/-- `Game::get_decks`: alive players' decks plus the upcard. -/
def get_decks (g : Game) : List (String × List Card) × Card :=
  ((g.alive_players).map (fun e => (e.1, e.2.deck)), g.upcard)

/-- `Game::get_points` (`HashMap` modelled in iteration order). -/
def get_points (g : Game) : List (String × Nat) :=
  (g.alive_players).map (fun e => (e.1, e.2.rounds))

/-- `Game::get_lifes` (`HashMap` modelled in iteration order). -/
def get_lifes (g : Game) : List (String × Nat) :=
  g.players.map (fun e => (e.1, e.2.lifes))

/-- `Game::get_card_value`: base value plus 100 when the card's rank is the
rank after the upcard's. -/
def get_card_value (g : Game) (card : Card) : Nat :=
  if g.upcard.rank.get_next = card.rank then card.get_value + 100 else card.get_value

/-- The mutations of a successful `bid` before the lap-end check: record the
bid and advance the bidding cursor. -/
def bid_advance (g : Game) (player_id : String) (b : Nat) : Game :=
  { g with
    players := map_player g.players player_id (fun p => { p with bid := some b }),
    bidding_iter := (g.bidding_iter.next).2 }

/-- `self.bidding_iter.shift()` at the end of the bidding lap. -/
def bid_shifted (g : Game) : Game :=
  { g with bidding_iter := g.bidding_iter.shift }

/-- `Game::bid` from src/models/game.rs, with the state threaded explicitly:
the returned game is the state at the point of return. -/
def bid (g : Game) (player_id : String) (bid : Nat) :
    Res (Game × Except BiddingError BiddingState) :=
  if g.get_cycle_stage = CycleStage.Dealing then
    .ok (g, .error .DealingStageActive)
  else if !(g.validate_bid bid) then
    .ok (g, .error .BidOutOfRange)
  else
    match g.peek_current_bidder with
    | .error m => .error m
    | .ok current_bidder =>
      if some player_id ≠ current_bidder then
        .ok (g, .error .NotYourTurn)
      else
        match g.players.lookup player_id with
        | none => .ok (g, .error .InvalidPlayer)
        | some player =>
          if player.bid.isSome then
            .ok (g, .error .AlreadyBidded)
          else
            match (g.bid_advance player_id bid).peek_current_bidder with
            | .error m => .error m
            | .ok (some next) =>
              .ok (g.bid_advance player_id bid,
                .ok (.Active next (g.bid_advance player_id bid).get_possible_bids))
            | .ok none =>
              match (bid_shifted (g.bid_advance player_id bid)).peek_current_dealer with
              | .error m => .error m
              | .ok none => .error "Should have a dealer"
              | .ok (some next) =>
                .ok (bid_shifted (g.bid_advance player_id bid), .ok (.Ended next))

/-- `Game::award_points`: read the backing vector, pop the maximum as the
winner, clear the heap, increment the winner's `rounds`. -/
def award_points (g : Game) : Res (List Turn × Game) :=
  match g.pile with
  | [] => .error "Should contain a turn"
  | (_, winner) :: _ =>
    match g.players.lookup winner.player_id with
    | none => .error "This player should exist here"
    | some _ =>
      .ok (g.get_pile,
        { g with
          pile := [],
          players := map_player g.players winner.player_id
            (fun p => { p with rounds := p.rounds + 1 }) })

/-- The life-loss pass of `remove_lifes`: an alive player whose bid missed
the tricks won loses one life. -/
def life_step (e : String × Player) : String × Player :=
  if 0 < e.2.lifes && e.2.bid ≠ some e.2.rounds then
    (e.1, { e.2 with lifes := e.2.lifes - 1 })
  else e

/-- The rounds-reset pass of `remove_lifes`: alive players' `rounds` go back
to zero. -/
def rounds_step (e : String × Player) : String × Player :=
  if 0 < e.2.lifes then (e.1, { e.2 with rounds := 0 }) else e

/-- The `unalive_players` enumeration of `remove_lifes`: the positions of
all players with zero lifes. -/
def dead_indices (ps : List (String × Player)) : List Nat :=
  ((ps.enum).filter (fun y => y.2.2.lifes == 0)).map (fun y => y.1)

/-- `Game::remove_lifes`: alive players whose bid missed their tricks lose a
life, alive players' `rounds` reset, and every index whose player now has
zero lifes is removed from both cursors. -/
def remove_lifes (g : Game) : Game :=
  { g with
    players := (g.players.map life_step).map rounds_step,
    round_iter :=
      (dead_indices ((g.players.map life_step).map rounds_step)).foldl
        (fun it i => it.remove i) g.round_iter,
    bidding_iter :=
      (dead_indices ((g.players.map life_step).map rounds_step)).foldl
        (fun it i => it.remove i) g.bidding_iter }

/-- `Game::get_new_cards_mode`; `MAX_AVAILABLE_CARDS / player_count` panics
on a zero player count (usize division by zero). -/
def get_new_cards_mode (mode : DealingMode) (count : Nat) (player_count : Nat) :
    Res (DealingMode × Nat) :=
  match mode with
  | .Increasing =>
    if player_count = 0 then .error "attempt to divide by zero"
    else if count + 1 < MAX_AVAILABLE_CARDS / player_count then
      .ok (.Increasing, count + 1)
    else
      .ok (.Decreasing, count - 1)
  | .Decreasing =>
    if count - 1 = 0 then .ok (.Increasing, count + 1)
    else .ok (.Decreasing, count - 1)

/-- The `for (_, player) in self.alive_players_mut()` loop of
`start_new_set`: deal `n` cards to each alive player in order by draining the
deck, clearing the player's bid; `drain(..n)` on a shorter vector panics. -/
def deal_decks (deck : List Card) (n : Nat) :
    List (String × Player) → Res (List (String × Player) × List Card)
  | [] => .ok ([], deck)
  | e :: rest =>
    if 0 < e.2.lifes then
      if n ≤ deck.length then
        match deal_decks (deck.drop n) n rest with
        | .error m => .error m
        | .ok (ps, d) => .ok ((e.1, { e.2 with deck := deck.take n, bid := none }) :: ps, d)
      else .error "drain out of range"
    else
      match deal_decks deck n rest with
      | .error m => .error m
      | .ok (ps, d) => .ok (e :: ps, d)

/-- `Game::start_new_set`, with the fresh shuffled deck passed explicitly;
`deck[0]` on an exhausted deck panics. -/
def start_new_set (new_deck : List Card) (g : Game) : Res Game :=
  match get_new_cards_mode g.dealing_mode g.cards_count (g.alive_players).length with
  | .error m => .error m
  | .ok (mode, count) =>
    match deal_decks new_deck count g.players with
    | .error m => .error m
    | .ok (ps, rest) =>
      match rest[0]? with
      | none => .error "index out of bounds"
      | some up =>
        .ok { g with
          dealing_mode := mode, cards_count := count, players := ps, upcard := up }

/-- The mutations of a successful `deal` before the branch classification:
remove the card from the hand, push it on the pile, advance the round
cursor. -/
def deal_play (g : Game) (turn : Turn) : Game :=
  { g with
    players := map_player g.players turn.player_id
      (fun p => { p with deck := p.deck.filter (fun c => !(c = turn.card)) }),
    pile := heap_push g.pile (g.get_card_value turn.card, turn),
    round_iter := (g.round_iter.next).2 }

/-- `self.round_iter.shift()` after a set ends. -/
def round_shifted (g : Game) : Game :=
  { g with round_iter := g.round_iter.shift }

/-- `self.round_iter.shift_to(idx)` after a trick ends. -/
def round_shifted_to (g : Game) (idx : Nat) : Game :=
  { g with round_iter := g.round_iter.shift_to idx }

/-- `Game::deal` from src/models/game.rs, with the state threaded explicitly
and the fresh deck for a possible `start_new_set` passed as a parameter. -/
def deal (new_deck : List Card) (g : Game) (turn : Turn) :
    Res (Game × Except TurnError DealState) :=
  if g.get_cycle_stage = CycleStage.Bidding then
    .ok (g, .error .BiddingStageActive)
  else
    match g.peek_current_dealer with
    | .error m => .error m
    | .ok current_dealer =>
      match g.players.lookup turn.player_id with
      | none => .ok (g, .error .InvalidPlayer)
      | some player =>
        if current_dealer ≠ some turn.player_id then
          .ok (g, .error (.NotYourTurn current_dealer))
        else if !(player.deck.contains turn.card) then
          .ok (g, .error .NotYourCard)
        else
          if ((g.deal_play turn).alive_players).all (fun e => e.2.deck.isEmpty) then
            match (g.deal_play turn).award_points with
            | .error m => .error m
            | .ok (pile, g2) =>
              match ((round_shifted g2.remove_lifes).alive_players).length with
              | 0 =>
                .ok (round_shifted g2.remove_lifes,
                  .ok ⟨pile, .Ended none (round_shifted g2.remove_lifes).get_lifes⟩)
              | 1 =>
                match ((round_shifted g2.remove_lifes).alive_players)[0]? with
                | none => .error "index out of bounds"
                | some w =>
                  .ok (round_shifted g2.remove_lifes,
                    .ok ⟨pile, .Ended (some w.1) (round_shifted g2.remove_lifes).get_lifes⟩)
              | _ + 2 =>
                match (round_shifted g2.remove_lifes).start_new_set new_deck with
                | .error m => .error m
                | .ok g5 =>
                  match g5.get_bidding_player with
                  | .error m => .error m
                  | .ok next =>
                    .ok (g5, .ok ⟨pile,
                      .SetEnded g5.get_lifes g5.get_possible_bids next
                        (g5.get_decks).2 (g5.get_decks).1⟩)
          else if (g.deal_play turn).pile.length = ((g.deal_play turn).alive_players).length then
            match (g.deal_play turn).award_points with
            | .error m => .error m
            | .ok (pile, g2) =>
              match pile[0]? with
              | none => .error "index out of bounds"
              | some first =>
                match g2.players.findIdx? (fun e => e.1 == first.player_id) with
                | none => .error "Player should be in the IndexMap"
                | some idx =>
                  .ok (round_shifted_to g2 idx,
                    .ok ⟨pile, .RoundEnded first.player_id (round_shifted_to g2 idx).get_points⟩)
          else
            match (g.deal_play turn).peek_current_dealer with
            | .error m => .error m
            | .ok none => .error "Should have a dealer"
            | .ok (some next) =>
              .ok (g.deal_play turn, .ok ⟨(g.deal_play turn).get_pile, .TurnPlayed next⟩)

/-- `Game::validate_game`. -/
def validate_game (players : List String) : Except GameError Unit :=
  if players.length < 2 then .error .NotEnoughPlayers
  else if players.length > MAX_PLAYER_COUNT then .error .TooManyPlayers
  else .ok ()

/-- The dealing loop of `Game::init_players`: one `Player::new` with `cards`
drained cards per name, collected into an `IndexMap` (insert semantics). -/
def init_decks (deck : List Card) (cards : Nat) :
    List String → Res (List (String × Player) × List Card)
  | [] => .ok ([], deck)
  | name :: rest =>
    if cards ≤ deck.length then
      match init_decks (deck.drop cards) cards rest with
      | .error m => .error m
      | .ok (ps, d) => .ok ((name, Player.new (deck.take cards)) :: ps, d)
    else .error "drain out of range"

/-- `collect()` of key/value pairs into an `IndexMap`. -/
def indexmap_collect (ps : List (String × Player)) : List (String × Player) :=
  ps.foldl (fun acc e => indexmap_insert acc e.1 e.2) []

/-- `Game::init_players`, with the shuffled deck passed explicitly;
`deck[0]` of the exhausted residue panics. -/
def init_players (deck : List Card) (players : List String) (cards : Nat) :
    Res (List (String × Player) × Card) :=
  match init_decks deck cards players with
  | .error m => .error m
  | .ok (ps, rest) =>
    match rest[0]? with
    | none => .error "index out of bounds"
    | some up => .ok (indexmap_collect ps, up)

/-- `Game::new`, with the shuffled deck passed explicitly. -/
def new (deck : List Card) (player_names : List String) (initial_cards_count : Nat) :
    Res (Except GameError Game) :=
  match validate_game player_names with
  | .error e => .ok (.error e)
  | .ok _ =>
    match init_players deck player_names initial_cards_count with
    | .error m => .error m
    | .ok (players, upcard) =>
      .ok (.ok
        { players := players,
          pile := [],
          dealing_mode := .Increasing,
          cards_count := initial_cards_count,
          bidding_iter := CyclicIterator.new player_names.length,
          round_iter := CyclicIterator.new player_names.length,
          upcard := upcard })

/-- `Game::new_default`. -/
def new_default (deck : List Card) (players : List String) :
    Res (Except GameError Game) :=
  new deck players 1

/-- The `alive_players().map(PlayerInfoDto{..})` collection inside
`get_game_info`; `bid.expect("Should have a bid by now")` panics on a
missing bid. -/
def collect_info : List (String × Player) → Res (List PlayerInfoDto)
  | [] => .ok []
  | e :: rest =>
    match e.2.bid with
    | none => .error "Should have a bid by now"
    | some b =>
      match collect_info rest with
      | .error m => .error m
      | .ok infos => .ok (⟨e.1, e.2.lifes, b, e.2.rounds⟩ :: infos)

/-- `Game::get_game_info` from src/models/game.rs. -/
def get_game_info (g : Game) (player_id : String) : Res GameInfoDto :=
  match g.players.lookup player_id with
  | none => .error "Player should exist here"
  | some player =>
    match collect_info g.alive_players with
    | .error m => .error m
    | .ok info =>
      match
        (match g.get_cycle_stage with
         | .Dealing => g.peek_current_dealer
         | .Bidding => g.peek_current_bidder) with
      | .error m => .error m
      | .ok none => .error "Should contain an active player"
      | .ok (some current_player) =>
        .ok ⟨player.deck, g.upcard, info, current_player⟩

end Game

/-- `LobbyState` from src/models/mod.rs (`HashSet` of ready players modelled
as a duplicate-free list). -/
inductive LobbyState where
  | NotStarted (ready : List String)
  | Playing (game : Game)
deriving DecidableEq

/-- The lobby of src/services/manager.rs, restricted to the data
`player_status_change` reads: the player-id keys of its `IndexMap` (in
insertion order) and its state. -/
structure Lobby where
  players : List String
  state : LobbyState
deriving DecidableEq

/-- `LobbyError` from src/services/manager.rs. -/
inductive LobbyError where
  | InvalidLobby | GameAlreadyStarted | GameNotStarted | WrongLobby
  | GameErr (e : GameError)
deriving DecidableEq, Repr

/-- The `set_info` tuple built by `player_status_change` when the game
starts. -/
structure SetInfo where
  decks : List (String × List Card)
  first : String
  upcard : Card
  possible : List Nat
deriving DecidableEq

/-- `HashSet::insert` on the duplicate-free list model. -/
def hashset_insert (s : List String) (x : String) : List String :=
  if s.contains x then s else s ++ [x]

/-- `HashSet::remove` on the duplicate-free list model. -/
def hashset_remove (s : List String) (x : String) : List String :=
  s.filter (fun y => !(y = x))

/-- The state-transition core of `Manager::player_status_change`
(src/services/manager.rs), after the lobby has been resolved: toggle the
ready set and, when everyone is ready, build the game with
`Game::new_default` and move the lobby to `Playing`.  The fresh shuffled
deck is passed explicitly. -/
def Manager.player_status_change (deck : List Card) (lobby : Lobby)
    (player_id : String) (ready : Bool) :
    Res (Except LobbyError (Lobby × Option SetInfo)) :=
  match lobby.state with
  | .Playing _ => .ok (.error .GameAlreadyStarted)
  | .NotStarted rs =>
    if (if ready then hashset_insert rs player_id else hashset_remove rs player_id).length
        = lobby.players.length then
      match Game.new_default deck lobby.players with
      | .error m => .error m
      | .ok (.error e) => .ok (.error (.GameErr e))
      | .ok (.ok game) =>
        match game.get_bidding_player with
        | .error m => .error m
        | .ok first =>
          .ok (.ok ({ lobby with state := .Playing game },
            some ⟨(game.get_decks).1, first, (game.get_decks).2, game.get_possible_bids⟩))
    else
      .ok (.ok ({ lobby with
        state := .NotStarted
          (if ready then hashset_insert rs player_id else hashset_remove rs player_id) },
        none))

/-- The operations a client of `CyclicIterator` can perform between
observations. -/
inductive CycOp where
  | next | shift | shift_to (i : Nat) | remove (i : Nat)
deriving DecidableEq, Repr

/-- One `CyclicIterator` operation (results of `next`/`shift_to`/`remove`
are discarded, as in every call site). -/
def CyclicIterator.apply (c : CyclicIterator) : CycOp → CyclicIterator
  | .next => (c.next).2
  | .shift => c.shift
  | .shift_to i => c.shift_to i
  | .remove i => c.remove i

/-- Run a sequence of operations. -/
def CyclicIterator.run (c : CyclicIterator) (ops : List CycOp) : CyclicIterator :=
  ops.foldl CyclicIterator.apply c

/-- The number of `next` calls since the last cycle start (`shift` or
`shift_to`, which reset the cursor even when the target item is absent),
starting from `k` pending calls. -/
def nexts_from (k : Nat) (ops : List CycOp) : Nat :=
  ops.foldl
    (fun acc op =>
      match op with
      | .next => acc + 1
      | .shift => 0
      | .shift_to _ => 0
      | .remove _ => acc) k

/-- A card's effective value as the spec words it: base value plus 100
exactly when its rank equals the trump rank, the rank after the upcard's
rank. -/
def effective_value (upcard : Card) (c : Card) : Nat :=
  c.get_value + (if c.rank = upcard.rank.get_next then 100 else 0)

/-- Game states reachable from a construction through successful `bid` and
`deal` commands.  Construction is restricted to distinct player ids, which
is what the lobby manager supplies (the keys of its `IndexMap`). -/
inductive Reachable : Game → Prop where
  | init (deck : List Card) (names : List String) (n : Nat) (g : Game)
      (hnodup : names.Nodup) (h : Game.new deck names n = .ok (.ok g)) :
      Reachable g
  | bid_step (g : Game) (p : String) (b : Nat) (g' : Game) (s : BiddingState)
      (hg : Reachable g) (h : Game.bid g p b = .ok (g', .ok s)) : Reachable g'
  | deal_step (dk : List Card) (g : Game) (t : Turn) (g' : Game) (s : DealState)
      (hg : Reachable g) (h : Game.deal dk g t = .ok (g', .ok s)) : Reachable g'

/-- Position `i` of a players list holds an alive player. -/
def AliveIdxL (ps : List (String × Player)) (i : Nat) : Prop :=
  ∃ e, ps[i]? = some e ∧ e.2.lifes ≠ 0

/-- Position `i` of a players list holds a player with a recorded bid. -/
def BidAtL (ps : List (String × Player)) (i : Nat) : Prop :=
  ∃ e, ps[i]? = some e ∧ e.2.bid.isSome

/-- The inductive invariant of reachable game states that drives the
bidding-cursor analysis: the player keys are unique, the bidding cursor's
items are exactly the indices of alive players (without duplicates), in the
bidding stage the pile is empty and the cursor splits the lap into a bidded
prefix and an unbidded suffix, and in the dealing stage the cursor has been
shifted back to position zero. -/
structure GameInv (g : Game) : Prop where
  keys_nodup : (g.players.map (fun e => e.1)).Nodup
  items_nodup : g.bidding_iter.items.Nodup
  mem_iff : ∀ i, i ∈ g.bidding_iter.items ↔ AliveIdxL g.players i
  bidding_inv : g.get_cycle_stage = .Bidding →
    g.pile = []
    ∧ (∀ j v, g.bidding_iter.items[j]? = some v →
        ((j < g.bidding_iter.current_index → BidAtL g.players v)
          ∧ (g.bidding_iter.current_index ≤ j → ¬ BidAtL g.players v)))
  dealing_idx : g.get_cycle_stage = .Dealing → g.bidding_iter.current_index = 0

/-- The canonical (unshuffled) deck: one possible value of
`Card::shuffled_deck()`. -/
def deck40 : List Card := Card.deck

/-- The game `Game::new(["A", "B"], 1)` produces from the canonical deck. -/
def gAB : Game :=
  { players :=
      [("A", { lifes := 5, deck := [⟨.Four, .Golds⟩], bid := none, rounds := 0 }),
       ("B", { lifes := 5, deck := [⟨.Four, .Swords⟩], bid := none, rounds := 0 })],
    pile := [],
    dealing_mode := .Increasing,
    bidding_iter := { items := [0, 1], current_index := 0 },
    round_iter := { items := [0, 1], current_index := 0 },
    cards_count := 1,
    upcard := ⟨.Four, .Cups⟩ }

/-- `gAB` after `bid("A", 1)` succeeded. -/
def gAB1 : Game :=
  { gAB with
    players :=
      [("A", { lifes := 5, deck := [⟨.Four, .Golds⟩], bid := some 1, rounds := 0 }),
       ("B", { lifes := 5, deck := [⟨.Four, .Swords⟩], bid := none, rounds := 0 })],
    bidding_iter := { items := [0, 1], current_index := 1 } }

/-- `gAB1` after `bid("B", 1)` succeeded: every player has a bid and the
bidding cursor has been shifted for the next lap. -/
def gAB2 : Game :=
  { gAB with
    players :=
      [("A", { lifes := 5, deck := [⟨.Four, .Golds⟩], bid := some 1, rounds := 0 }),
       ("B", { lifes := 5, deck := [⟨.Four, .Swords⟩], bid := some 1, rounds := 0 })],
    bidding_iter := { items := [1, 0], current_index := 0 } }

/-- A dealing-stage game whose full pile holds a trump (Five of Golds,
value 110) from "A" and a plain Three of Clubs (value 93) from "B", with the
heap in descending order. -/
def gPile : Game :=
  { players :=
      [("A", { lifes := 5, deck := [], bid := some 1, rounds := 0 }),
       ("B", { lifes := 5, deck := [], bid := some 0, rounds := 0 })],
    pile := [(110, ⟨"A", ⟨.Five, .Golds⟩⟩), (93, ⟨"B", ⟨.Three, .Clubs⟩⟩)],
    dealing_mode := .Increasing,
    bidding_iter := { items := [1, 0], current_index := 0 },
    round_iter := { items := [0, 1], current_index := 1 },
    cards_count := 1,
    upcard := ⟨.Four, .Cups⟩ }

/-- The winning pile entry of `gPile`. -/
def gPile_w : Nat × Turn := (110, ⟨"A", ⟨.Five, .Golds⟩⟩)

/-- The rest of the pile of `gPile`. -/
def gPile_rest : List (Nat × Turn) := [(93, ⟨"B", ⟨.Three, .Clubs⟩⟩)]

/-! ## Supporting lemmas -/

lemma lookup_isSome_of_mem {α β : Type _} [BEq α] [LawfulBEq α]
    (ps : List (α × β)) (e : α × β) (h : e ∈ ps) : (ps.lookup e.1).isSome := by
  induction ps with
  | nil => simp at h
  | cons a rest ih =>
    obtain ⟨k, v⟩ := a
    rcases List.mem_cons.1 h with rfl | hm
    · simp [List.lookup_cons]
    · rw [List.lookup_cons]
      rcases hbeq : e.1 == k with _ | _
      · simpa only [hbeq] using ih hm
      · simp

lemma get_player_ok (g : Game) (i : Nat) (p : String) (h : g.get_player i = .ok p) :
    ∃ e, g.players[i]? = some e ∧ e.1 = p := by
  unfold Game.get_player at h
  split at h
  · rename_i e hgete
    exact ⟨e, hgete, by simpa using h⟩
  · exact absurd h (by simp)

lemma peek_current_bidder_some (g : Game) (p : String)
    (h : g.peek_current_bidder = .ok (some p)) :
    ∃ i e, g.bidding_iter.peek = some i ∧ g.players[i]? = some e ∧ e.1 = p := by
  unfold Game.peek_current_bidder at h
  split at h
  · exact absurd h (by simp)
  · rename_i i hpeek
    split at h
    · rename_i q hq
      obtain ⟨e, he, hep⟩ := get_player_ok g i q hq
      have hqp : q = p := by simpa using h
      exact ⟨i, e, hpeek, he, by rw [hep, hqp]⟩
    · exact absurd h (by simp)

lemma lookup_isSome_of_current_bidder (g : Game) (p : String)
    (h : g.peek_current_bidder = .ok (some p)) : (g.players.lookup p).isSome := by
  obtain ⟨i, e, _, hgete, rfl⟩ := peek_current_bidder_some g p h
  exact lookup_isSome_of_mem g.players e
    (List.mem_iff_getElem?.2 ⟨i, hgete⟩)

lemma cyc_apply_current_index (c : CyclicIterator) (op : CycOp) :
    (c.apply op).current_index =
      (match op with
       | .next => c.current_index + 1
       | .shift => 0
       | .shift_to _ => 0
       | .remove _ => c.current_index) := by
  cases op with
  | next => rfl
  | shift =>
    simp only [CyclicIterator.apply, CyclicIterator.shift, CyclicIterator.reset]
    split <;> rfl
  | shift_to i =>
    simp only [CyclicIterator.apply, CyclicIterator.shift_to, CyclicIterator.reset]
    split <;> rfl
  | remove i =>
    simp only [CyclicIterator.apply, CyclicIterator.remove]
    split <;> rfl

lemma run_current_index (ops : List CycOp) : ∀ c : CyclicIterator,
    (c.run ops).current_index = nexts_from c.current_index ops := by
  induction ops with
  | nil => intro c; rfl
  | cons op rest ih =>
    intro c
    show ((c.apply op).run rest).current_index = _
    rw [ih]
    simp only [nexts_from, List.foldl_cons]
    congr 1
    exact cyc_apply_current_index c op

/-! ## Claims -/

/-- C7: for every `CyclicIterator` born as `new n` and every operation
sequence, the cursor equals the number of `next` calls since the last cycle
start (`shift`/`shift_to`), so `peek()` is `Some` while fewer than `N` calls
(`N` the current item count) have happened, `peek()` is `None` exactly when
at least `N` `next` calls have happened since the last shift, and `next()`
yields exactly what `peek()` shows (hence also `None` until a shift). -/
theorem cyclic_iterator_exhaustion (n : Nat) (ops : List CycOp) :
    ((CyclicIterator.new n).run ops).current_index = nexts_from 0 ops
    ∧ (((CyclicIterator.new n).run ops).peek = none
        ↔ ((CyclicIterator.new n).run ops).items.length ≤ nexts_from 0 ops)
    ∧ (((CyclicIterator.new n).run ops).next).1 = ((CyclicIterator.new n).run ops).peek := by
  have h := run_current_index ops (CyclicIterator.new n)
  have h0 : (CyclicIterator.new n).current_index = 0 := rfl
  rw [h0] at h
  refine ⟨h, ?_, rfl⟩
  rw [← h]
  exact List.getElem?_eq_none_iff

lemma init_decks_ok_of_le (names : List String) : ∀ (deck : List Card) (cards : Nat),
    names.length * cards ≤ deck.length →
    ∃ ps, Game.init_decks deck cards names = .ok (ps, deck.drop (names.length * cards))
      ∧ ps.map (fun e => e.1) = names
      ∧ ∀ e ∈ ps, e.2.deck.length = cards ∧ e.2.bid = none ∧ e.2.lifes = 5 := by
  induction names with
  | nil =>
    intro deck cards _
    exact ⟨[], by simp [Game.init_decks], rfl, by simp⟩
  | cons name rest ih =>
    intro deck cards h
    rw [List.length_cons, Nat.succ_mul] at h
    have hle : cards ≤ deck.length := by omega
    have hrec : rest.length * cards ≤ (deck.drop cards).length := by
      rw [List.length_drop]; omega
    obtain ⟨ps, hps, hkeys, hprops⟩ := ih (deck.drop cards) cards hrec
    refine ⟨(name, Player.new (deck.take cards)) :: ps, ?_, ?_, ?_⟩
    · simp only [Game.init_decks]
      rw [if_pos hle, hps, List.drop_drop]
      have : rest.length * cards + cards = cards + rest.length * cards := by omega
      rw [List.length_cons, Nat.succ_mul, this]
    · simp [hkeys]
    · intro e he
      rcases List.mem_cons.1 he with rfl | hm
      · refine ⟨?_, rfl, rfl⟩
        simp [Player.new, List.length_take]
        omega
      · exact hprops e hm

lemma init_decks_err_of_gt (names : List String) : ∀ (deck : List Card) (cards : Nat),
    deck.length < names.length * cards →
    ∃ m, Game.init_decks deck cards names = .error m := by
  induction names with
  | nil => intro deck cards h; simp at h
  | cons name rest ih =>
    intro deck cards h
    rw [List.length_cons, Nat.succ_mul] at h
    by_cases hle : cards ≤ deck.length
    · have hrec : (deck.drop cards).length < rest.length * cards := by
        rw [List.length_drop]; omega
      obtain ⟨m, hm⟩ := ih (deck.drop cards) cards hrec
      refine ⟨m, ?_⟩
      simp only [Game.init_decks]
      rw [if_pos hle, hm]
    · refine ⟨"drain out of range", ?_⟩
      simp only [Game.init_decks]
      rw [if_neg hle]

/-- C8: `Game::new` performs no validation of `initial_cards_count`: with a
40-card deck and an accepted player count (2..13), construction panics (an
out-of-range `drain` while dealing or `deck[0]` on an empty residue for the
upcard) exactly when `players.len() * initial_cards_count ≥ 40`, and returns
`Ok` exactly when it is at most 39. -/
theorem game_new_panics_iff (deck : List Card) (names : List String) (c : Nat)
    (hdeck : deck.length = 40) (h2 : 2 ≤ names.length) (h13 : names.length ≤ 13) :
    ((∃ m, Game.new deck names c = .error m) ↔ 40 ≤ names.length * c)
    ∧ ((∃ g, Game.new deck names c = .ok (.ok g)) ↔ names.length * c ≤ 39) := by
  have hval : Game.validate_game names = .ok () := by
    unfold Game.validate_game
    rw [if_neg (by omega), if_neg (by simp only [MAX_PLAYER_COUNT]; omega)]
  rcases le_or_lt (names.length * c) 39 with hle | hgt
  · obtain ⟨ps, hps, -, -⟩ := init_decks_ok_of_le names deck c (by omega)
    have hrest : 0 < (deck.drop (names.length * c)).length := by
      rw [List.length_drop]; omega
    obtain ⟨x, hx⟩ : ∃ x, (deck.drop (names.length * c))[0]? = some x :=
      ⟨_, List.getElem?_eq_getElem hrest⟩
    have hnew : Game.new deck names c =
        .ok (.ok
          { players := Game.indexmap_collect ps, pile := [],
            dealing_mode := .Increasing, cards_count := c,
            bidding_iter := CyclicIterator.new names.length,
            round_iter := CyclicIterator.new names.length, upcard := x }) := by
      simp only [Game.new, Game.init_players, hval, hps, hx]
    constructor
    · constructor
      · rintro ⟨m, hm⟩
        rw [hnew] at hm
        exact absurd hm (by simp)
      · intro h40; omega
    · exact ⟨fun _ => hle, fun _ => ⟨_, hnew⟩⟩
  · rcases le_or_lt (names.length * c) 40 with hle40 | hgt40
    · obtain ⟨ps, hps, -, -⟩ := init_decks_ok_of_le names deck c (by omega)
      have hrest : (deck.drop (names.length * c))[0]? = none := by
        apply List.getElem?_eq_none
        rw [List.length_drop]; omega
      have hnew : Game.new deck names c = .error "index out of bounds" := by
        simp only [Game.new, Game.init_players, hval, hps, hrest]
      constructor
      · exact ⟨fun _ => by omega, fun _ => ⟨_, hnew⟩⟩
      · constructor
        · rintro ⟨g, hg⟩
          rw [hnew] at hg
          exact absurd hg (by simp)
        · intro h; omega
    · obtain ⟨m, hm⟩ := init_decks_err_of_gt names deck c (by omega)
      have hnew : Game.new deck names c = .error m := by
        simp only [Game.new, Game.init_players, hval, hm]
      constructor
      · exact ⟨fun _ => by omega, fun _ => ⟨_, hnew⟩⟩
      · constructor
        · rintro ⟨g, hg⟩
          rw [hnew] at hg
          exact absurd hg (by simp)
        · intro h; omega

/-- Concrete instance of C8: two players with 20 initial cards panic
(2 · 20 ≥ 40), discharging the hypotheses of `game_new_panics_iff`. -/
theorem game_new_panics_iff_witness :
    ((∃ m, Game.new deck40 ["A", "B"] 20 = .error m) ↔ 40 ≤ ["A", "B"].length * 20)
    ∧ ((∃ g, Game.new deck40 ["A", "B"] 20 = .ok (.ok g)) ↔ ["A", "B"].length * 20 ≤ 39) :=
  game_new_panics_iff deck40 ["A", "B"] 20 (by decide) (by decide) (by decide)

lemma validate_bid_false_iff (g : Game) (b : Nat) :
    g.validate_bid b = false ↔
      (g.cards_count < b
        ∨ (g.bidding_iter.peek_next = none ∧ b + g.bid_sum = g.cards_count)) := by
  unfold Game.validate_bid Game.makes_perfect_bidding_round
  rcases hpn : g.bidding_iter.peek_next with _ | v
  · by_cases h3 : b + g.bid_sum = g.cards_count <;>
      by_cases h1 : b ≤ g.cards_count <;>
      simp [hpn, h1, h3] <;> omega
  · by_cases h1 : b ≤ g.cards_count <;> simp [hpn, h1] <;> omega

lemma mem_possible_bids_iff (g : Game) (x : Nat) :
    x ∈ g.get_possible_bids ↔
      (x ≤ g.cards_count
        ∧ ¬(g.bidding_iter.peek_next = none ∧ x + g.bid_sum = g.cards_count)) := by
  unfold Game.get_possible_bids Game.makes_perfect_bidding_round
  rcases hpn : g.bidding_iter.peek_next with _ | v
  · simp [hpn, List.mem_filter, List.mem_range, Nat.lt_succ_iff]
  · simp [hpn, List.mem_range, Nat.lt_succ_iff]

/-- C2: in the bidding stage with current bidder `p`, `bid(p, b)` returns
`BidOutOfRange` exactly when `b > cards_count` or `p` is the last bidder of
the lap (`peek_next` is exhausted) and the recorded bids plus `b` sum to
`cards_count`; and `get_possible_bids()` contains exactly the values
`0..=cards_count` minus, for the last bidder, the value completing that
sum. -/
theorem bid_out_of_range_iff (g : Game) (p : String) (b : Nat)
    (hstage : g.get_cycle_stage = .Bidding)
    (hcb : g.peek_current_bidder = .ok (some p)) :
    (Game.bid g p b = .ok (g, .error .BidOutOfRange)
      ↔ (g.cards_count < b
          ∨ (g.bidding_iter.peek_next = none ∧ b + g.bid_sum = g.cards_count)))
    ∧ (∀ x, x ∈ g.get_possible_bids
        ↔ (x ≤ g.cards_count
            ∧ ¬(g.bidding_iter.peek_next = none ∧ x + g.bid_sum = g.cards_count))) := by
  refine ⟨?_, fun x => mem_possible_bids_iff g x⟩
  rw [← validate_bid_false_iff]
  unfold Game.bid
  rw [if_neg (by simp [hstage])]
  by_cases hv : g.validate_bid b = false
  · rw [if_pos (by simp [hv])]
    simp [hv]
  · have hv' : g.validate_bid b = true := by
      cases hbv : g.validate_bid b
      · exact absurd hbv hv
      · rfl
    rw [if_neg (by simp [hv'])]
    constructor
    · intro h
      exfalso
      repeat' split at h
      all_goals simp_all
    · intro hfalse
      exact absurd hfalse hv

/-- Concrete instance of C2: in the fresh two-player one-card game, for the
current bidder "A" the bid 2 is out of range and the possible bids are
characterised, discharging the hypotheses of `bid_out_of_range_iff`. -/
theorem bid_out_of_range_iff_witness :
    (Game.bid gAB "A" 2 = .ok (gAB, .error .BidOutOfRange)
      ↔ (gAB.cards_count < 2
          ∨ (gAB.bidding_iter.peek_next = none ∧ 2 + gAB.bid_sum = gAB.cards_count)))
    ∧ (∀ x, x ∈ gAB.get_possible_bids
        ↔ (x ≤ gAB.cards_count
            ∧ ¬(gAB.bidding_iter.peek_next = none ∧ x + gAB.bid_sum = gAB.cards_count))) :=
  bid_out_of_range_iff gAB "A" 2 (by decide) (by decide)

/-- C3: an error return from `Game::bid` or `Game::deal` leaves the whole
game state (players, pile, cursors, mode, counters, upcard) unchanged: every
error exit happens before the first mutation. -/
theorem engine_error_no_state_change (g : Game) (p : String) (b : Nat)
    (dk : List Card) (t : Turn) :
    (∀ g' e, Game.bid g p b = .ok (g', .error e) → g' = g)
    ∧ (∀ g' e, Game.deal dk g t = .ok (g', .error e) → g' = g) := by
  constructor
  · intro g' e h
    unfold Game.bid at h
    repeat' split at h
    all_goals simp_all
  · intro g' e h
    unfold Game.deal at h
    repeat' split at h
    all_goals simp_all

/-- Concrete instance of C3: a wrong-turn bid in the fresh two-player game
errors and returns the state unchanged, discharging the hypotheses of
`engine_error_no_state_change`. -/
theorem engine_error_no_state_change_witness : gAB = gAB :=
  (engine_error_no_state_change gAB "B" 0 [] ⟨"B", ⟨.Four, .Swords⟩⟩).1
    gAB .NotYourTurn (by decide)

/-- Checks whether a `bid` outcome is the `InvalidPlayer` error. -/
def bid_is_invalid_player (r : Res (Game × Except BiddingError BiddingState)) : Bool :=
  match r with
  | .ok (_, .error .InvalidPlayer) => true
  | _ => false

/-- C9: `Game::bid` never returns `BiddingError::InvalidPlayer`: an unknown
player id always fails the current-bidder comparison (or an earlier check)
before the player lookup, so the `InvalidPlayer` branch is unreachable. -/
theorem bid_invalid_player_unreachable (g : Game) (p : String) (b : Nat) :
    bid_is_invalid_player (Game.bid g p b) = false := by
  unfold Game.bid
  split
  · rfl
  split
  · rfl
  split
  · rfl
  rename_i cb hcb
  split
  · rfl
  rename_i hne
  split
  · rename_i hnone
    -- the unreachable branch: the current bidder equals `p`,
    -- so `p` is a key of the players map and the lookup succeeds
    have hp : cb = some p := by
      by_contra hcb'
      exact hne (fun h => hcb' h.symm) |>.elim
    rw [hp] at hcb
    have := lookup_isSome_of_current_bidder g p hcb
    rw [hnone] at this
    simp at this
  rename_i player hlook
  split
  · rfl
  split
  · rfl
  · rfl
  · split <;> rfl

/-- C5, counterexample: in the fresh two-player game the current bidder is
"A", yet `bid("B", 2)` returns `BidOutOfRange` rather than `NotYourTurn`,
because the range check precedes the turn check. -/
theorem bid_wrong_turn_counterexample :
    gAB.peek_current_bidder = .ok (some "A")
    ∧ Game.bid gAB "B" 2 = .ok (gAB, .error .BidOutOfRange) := by
  exact ⟨by decide, by decide⟩

/-- C5 (amended): in the bidding stage, when the caller is not the current
bidder, `bid` returns `NotYourTurn` for every bid value that passes bid
validation (`validate_bid`); for out-of-range values `BidOutOfRange` takes
precedence. -/
theorem bid_wrong_turn_not_your_turn (g : Game) (p : String) (b : Nat)
    (cb : Option String)
    (hstage : g.get_cycle_stage = .Bidding)
    (hv : g.validate_bid b = true)
    (hcb : g.peek_current_bidder = .ok cb)
    (hne : cb ≠ some p) :
    Game.bid g p b = .ok (g, .error .NotYourTurn) := by
  unfold Game.bid
  rw [if_neg (by simp [hstage]), if_neg (by simp [hv]), hcb]
  dsimp only
  rw [if_pos (fun hh => hne hh.symm)]

/-- Concrete instance of the amended C5: `bid("B", 0)` before "A" has bid
returns `NotYourTurn`, discharging the hypotheses of
`bid_wrong_turn_not_your_turn`. -/
theorem bid_wrong_turn_witness :
    Game.bid gAB "B" 0 = .ok (gAB, .error .NotYourTurn) :=
  bid_wrong_turn_not_your_turn gAB "B" 0 (some "A")
    (by decide) (by decide) (by decide) (by decide)

/-- C6, counterexample: on a fresh game (a constructed `Game` with no bids
placed), `get_game_info` panics at `bid.expect("Should have a bid by now")`
even for a player present in the map, so it is not total. -/
theorem get_game_info_panics_counterexample :
    Game.new deck40 ["A", "B"] 1 = .ok (.ok gAB)
    ∧ (gAB.players.lookup "A").isSome = true
    ∧ Game.get_game_info gAB "A" = .error "Should have a bid by now" := by
  refine ⟨by decide, by decide, by decide⟩

lemma collect_info_ok (l : List (String × Player)) (h : ∀ e ∈ l, e.2.bid.isSome) :
    ∃ r, Game.collect_info l = .ok r := by
  induction l with
  | nil => exact ⟨[], rfl⟩
  | cons e rest ih =>
    obtain ⟨b, hb⟩ := Option.isSome_iff_exists.1 (h e (List.mem_cons_self e rest))
    obtain ⟨r, hr⟩ := ih (fun x hx => h x (List.mem_cons_of_mem e hx))
    exact ⟨⟨e.1, e.2.lifes, b, e.2.rounds⟩ :: r,
      by simp only [Game.collect_info, hb, hr]⟩

/-- C6 (amended): `get_game_info(p)` is total for every `p` in the players
map provided every alive player has a recorded bid and the current-stage
cursor resolves to a player (e.g. any state in the dealing stage); on a
fresh game, where no bids have been placed, it panics instead. -/
theorem get_game_info_total_amended (g : Game) (p q : String)
    (hp : (g.players.lookup p).isSome)
    (hbids : ∀ e ∈ g.alive_players, e.2.bid.isSome)
    (hcur : (match g.get_cycle_stage with
             | .Dealing => g.peek_current_dealer
             | .Bidding => g.peek_current_bidder) = .ok (some q)) :
    ∃ info, Game.get_game_info g p = .ok info := by
  obtain ⟨pl, hpl⟩ := Option.isSome_iff_exists.1 hp
  obtain ⟨r, hr⟩ := collect_info_ok g.alive_players hbids
  refine ⟨⟨pl.deck, g.upcard, r, q⟩, ?_⟩
  unfold Game.get_game_info
  rw [hpl, hr, hcur]

/-- Concrete instance of the amended C6: in the dealing-stage state `gAB2`
(both players have bid), `get_game_info("A")` succeeds, discharging the
hypotheses of `get_game_info_total_amended`. -/
theorem get_game_info_total_amended_witness :
    ∃ info, Game.get_game_info gAB2 "A" = .ok info :=
  get_game_info_total_amended gAB2 "A" "A" (by decide) (by decide) (by decide)

lemma card_get_value_inj_comp : ∀ (r1 r2 : Rank) (s1 s2 : Suit),
    Card.get_value ⟨r1, s1⟩ = Card.get_value ⟨r2, s2⟩ → r1 = r2 ∧ s1 = s2 := by
  decide

lemma card_get_value_le : ∀ (r : Rank) (s : Suit), Card.get_value ⟨r, s⟩ ≤ 93 := by
  decide

lemma card_get_value_inj (a b : Card) (h : a.get_value = b.get_value) : a = b := by
  obtain ⟨r1, s1⟩ := a
  obtain ⟨r2, s2⟩ := b
  obtain ⟨hr, hs⟩ := card_get_value_inj_comp r1 r2 s1 s2 h
  rw [hr, hs]

lemma effective_value_inj (up : Card) (a b : Card)
    (h : effective_value up a = effective_value up b) : a = b := by
  unfold effective_value at h
  by_cases ha : a.rank = up.rank.get_next <;> by_cases hb : b.rank = up.rank.get_next
  · rw [if_pos ha, if_pos hb] at h
    exact card_get_value_inj a b (by omega)
  · rw [if_pos ha, if_neg hb] at h
    have h1 := card_get_value_le b.rank b.suit
    have h2 : (⟨b.rank, b.suit⟩ : Card) = b := rfl
    rw [h2] at h1
    omega
  · rw [if_neg ha, if_pos hb] at h
    have h1 := card_get_value_le a.rank a.suit
    have h2 : (⟨a.rank, a.suit⟩ : Card) = a := rfl
    rw [h2] at h1
    omega
  · rw [if_neg ha, if_neg hb] at h
    exact card_get_value_inj a b (by omega)

lemma get_card_value_eq_effective (g : Game) (c : Card) :
    g.get_card_value c = effective_value g.upcard c := by
  unfold Game.get_card_value effective_value
  by_cases h : g.upcard.rank.get_next = c.rank
  · rw [if_pos h, if_pos h.symm]
  · rw [if_neg h, if_neg (fun hh => h hh.symm)]
    omega

lemma entry_le_fst (a b : Nat × Turn) (h : entry_le a b = true) : a.1 ≤ b.1 := by
  unfold entry_le at h
  simp only [Bool.or_eq_true, Bool.and_eq_true, decide_eq_true_eq] at h
  rcases h with h | ⟨h1, -⟩
  · omega
  · omega

/-- C1: when `award_points` resolves a full pile whose entries carry the
values `get_card_value` assigned at push time and whose heap order is the
descending entry order (the `BinaryHeap` invariant), the popped winner `w`
is the unique entry of maximum effective value — base value plus 100 exactly
when the rank is the trump rank, the rank after the upcard's — and the
winner's `rounds_won` is incremented while the pile is cleared. -/
theorem award_points_max_effective (g : Game) (w : Nat × Turn)
    (rest : List (Nat × Turn))
    (hp : g.pile = w :: rest)
    (hsorted : pile_sorted g.pile = true)
    (hvals : ∀ x ∈ g.pile, x.1 = g.get_card_value x.2.card)
    (hw : (g.players.lookup w.2.player_id).isSome) :
    (∀ x ∈ g.pile, x.2.card ≠ w.2.card →
      effective_value g.upcard x.2.card < effective_value g.upcard w.2.card)
    ∧ g.award_points = .ok (g.get_pile,
        { g with
          pile := [],
          players := map_player g.players w.2.player_id
            (fun p => { p with rounds := p.rounds + 1 }) }) := by
  obtain ⟨wv, wt⟩ := w
  obtain ⟨pl, hpl⟩ := Option.isSome_iff_exists.1 hw
  constructor
  · intro x hx hne
    rw [hp] at hx
    rcases List.mem_cons.1 hx with rfl | hxr
    · exact absurd rfl hne
    · have hall : ∀ y ∈ rest, entry_le y (wv, wt) = true := by
        rw [hp] at hsorted
        unfold pile_sorted at hsorted
        simp only [Bool.and_eq_true, List.all_eq_true] at hsorted
        exact hsorted.1
      have hle := entry_le_fst x (wv, wt) (hall x hxr)
      have hxv := hvals x (by rw [hp]; exact List.mem_cons_of_mem (wv, wt) hxr)
      have hwv := hvals (wv, wt) (by rw [hp]; exact List.mem_cons_self (wv, wt) rest)
      rw [get_card_value_eq_effective] at hxv hwv
      have heff : effective_value g.upcard x.2.card
          ≤ effective_value g.upcard (wv, wt).2.card := by
        omega
      rcases lt_or_eq_of_le heff with hlt | heq
      · exact hlt
      · exact absurd (effective_value_inj g.upcard x.2.card (wv, wt).2.card heq) hne
  · unfold Game.award_points
    rw [hp]
    dsimp only
    rw [hpl]

/-- Concrete instance of C1: in `gPile` the trump Five of Golds strictly
dominates the pile and "A" is awarded the trick, discharging the hypotheses
of `award_points_max_effective`. -/
theorem award_points_max_effective_witness :
    (∀ x ∈ gPile.pile, x.2.card ≠ gPile_w.2.card →
      effective_value gPile.upcard x.2.card < effective_value gPile.upcard gPile_w.2.card)
    ∧ gPile.award_points = .ok (gPile.get_pile,
        { gPile with
          pile := [],
          players := map_player gPile.players gPile_w.2.player_id
            (fun p => { p with rounds := p.rounds + 1 }) }) :=
  award_points_max_effective gPile gPile_w gPile_rest
    (by decide) (by decide) (by decide) (by decide)

lemma init_decks_mem (names : List String) : ∀ (deck : List Card) (cards : Nat)
    (ps : List (String × Player)) (rest : List Card),
    Game.init_decks deck cards names = .ok (ps, rest) →
    ∀ e ∈ ps, e.2.deck.length = cards := by
  induction names with
  | nil =>
    intro deck cards ps rest h e he
    simp only [Game.init_decks] at h
    injection h with h1
    injection h1 with h1a h1b
    rw [← h1a] at he
    simp at he
  | cons name restn ih =>
    intro deck cards ps rest h e he
    simp only [Game.init_decks] at h
    by_cases hlen : cards ≤ deck.length
    · rw [if_pos hlen] at h
      cases hrec : Game.init_decks (deck.drop cards) cards restn with
      | error m => rw [hrec] at h; simp at h
      | ok pr =>
        obtain ⟨ps1, d1⟩ := pr
        rw [hrec] at h
        injection h with h1
        injection h1 with hps hrest
        rw [← hps] at he
        rcases List.mem_cons.1 he with rfl | hm
        · simp [Player.new, List.length_take]
          omega
        · exact ih (deck.drop cards) cards ps1 d1 hrec e hm
    · rw [if_neg hlen] at h
      simp at h

lemma mem_indexmap_insert (ps : List (String × Player)) (k : String) (v : Player)
    (e : String × Player) (h : e ∈ indexmap_insert ps k v) : e = (k, v) ∨ e ∈ ps := by
  induction ps with
  | nil =>
    unfold indexmap_insert at h
    exact Or.inl (by simpa using h)
  | cons a rest ih =>
    unfold indexmap_insert at h
    split at h
    · rcases List.mem_cons.1 h with rfl | hm
      · exact Or.inl rfl
      · exact Or.inr (List.mem_cons_of_mem a hm)
    · rcases List.mem_cons.1 h with rfl | hm
      · exact Or.inr (List.mem_cons_self _ _)
      · rcases ih hm with h1 | h1
        · exact Or.inl h1
        · exact Or.inr (List.mem_cons_of_mem a h1)

lemma mem_indexmap_collect_aux (ps : List (String × Player)) :
    ∀ (acc : List (String × Player)) (e : String × Player),
    e ∈ ps.foldl (fun acc x => indexmap_insert acc x.1 x.2) acc → e ∈ acc ∨ e ∈ ps := by
  induction ps with
  | nil => intro acc e h; exact Or.inl h
  | cons x rest ih =>
    intro acc e h
    rw [List.foldl_cons] at h
    rcases ih (indexmap_insert acc x.1 x.2) e h with h1 | h1
    · rcases mem_indexmap_insert acc x.1 x.2 e h1 with h2 | h2
      · exact Or.inr (by rw [h2]; exact List.mem_cons_self x rest)
      · exact Or.inl h2
    · exact Or.inr (List.mem_cons_of_mem x h1)

lemma mem_indexmap_collect (ps : List (String × Player)) (e : String × Player)
    (h : e ∈ Game.indexmap_collect ps) : e ∈ ps := by
  rcases mem_indexmap_collect_aux ps [] e h with h1 | h1
  · simp at h1
  · exact h1

lemma validate_game_ok (names : List String) (u : Unit)
    (h : Game.validate_game names = .ok u) :
    2 ≤ names.length ∧ names.length ≤ MAX_PLAYER_COUNT := by
  unfold Game.validate_game at h
  by_cases h1 : names.length < 2
  · rw [if_pos h1] at h; simp at h
  · rw [if_neg h1] at h
    by_cases h2 : names.length > MAX_PLAYER_COUNT
    · rw [if_pos h2] at h; simp at h
    · constructor <;> omega

lemma new_ok_shape (deck : List Card) (names : List String) (c : Nat) (g : Game)
    (h : Game.new deck names c = .ok (.ok g)) :
    g.cards_count = c
    ∧ g.pile = []
    ∧ g.bidding_iter = CyclicIterator.new names.length
    ∧ 2 ≤ names.length
    ∧ ∃ ps rest, Game.init_decks deck c names = .ok (ps, rest)
        ∧ g.players = Game.indexmap_collect ps := by
  unfold Game.new at h
  cases hval : Game.validate_game names with
  | error e => rw [hval] at h; simp at h
  | ok u =>
    rw [hval] at h
    dsimp only at h
    unfold Game.init_players at h
    cases hid : Game.init_decks deck c names with
    | error m => rw [hid] at h; simp at h
    | ok pr =>
      obtain ⟨ps, rest⟩ := pr
      rw [hid] at h
      dsimp only at h
      cases h0 : rest[0]? with
      | none => rw [h0] at h; simp at h
      | some up =>
        rw [h0] at h
        dsimp only at h
        injection h with h1
        injection h1 with h2
        rw [← h2]
        exact ⟨rfl, rfl, rfl, (validate_game_ok names u hval).1, ps, rest, rfl, rfl⟩

/-- C10: whenever the lobby manager's `player_status_change` starts the game
(all players ready), the game is built with `Game::new_default`, so it
begins with `cards_count = 1` and one card dealt to each player, for every
number of players. -/
theorem lobby_start_cards_count_one (deck : List Card) (lobby : Lobby)
    (pid : String) (rdy : Bool) (l : Lobby) (si : Option SetInfo) (g : Game)
    (h : Manager.player_status_change deck lobby pid rdy = .ok (.ok (l, si)))
    (hg : l.state = .Playing g) :
    g.cards_count = 1 ∧ ∀ e ∈ g.players, e.2.deck.length = 1 := by
  unfold Manager.player_status_change at h
  split at h
  · simp at h
  · rename_i rs hstate
    generalize (if rdy then hashset_insert rs pid else hashset_remove rs pid) = rs2 at h
    split at h
    · cases hnew : Game.new_default deck lobby.players with
      | error m => rw [hnew] at h; simp at h
      | ok r =>
        cases r with
        | error e => rw [hnew] at h; simp at h
        | ok game =>
          rw [hnew] at h
          dsimp only at h
          cases hfirst : game.get_bidding_player with
          | error m => rw [hfirst] at h; simp at h
          | ok first =>
            rw [hfirst] at h
            dsimp only at h
            injection h with h1
            injection h1 with h2
            injection h2 with h2a h2b
            rw [← h2a] at hg
            have hgame : game = g := by simpa using hg
            rw [← hgame]
            obtain ⟨hc, -, -, -, ps, rest, hinit, hplayers⟩ :=
              new_ok_shape deck lobby.players 1 game hnew
            refine ⟨hc, fun e he => ?_⟩
            rw [hplayers] at he
            exact init_decks_mem lobby.players deck 1 ps rest hinit e
              (mem_indexmap_collect ps e he)
    · injection h with h1
      injection h1 with h2
      injection h2 with h2a h2b
      rw [← h2a] at hg
      simp at hg

/-- Concrete instance of C10: "B" readying up in a two-player lobby starts
the game `gAB` with one card each, discharging the hypotheses of
`lobby_start_cards_count_one`. -/
theorem lobby_start_cards_count_one_witness :
    gAB.cards_count = 1 ∧ ∀ e ∈ gAB.players, e.2.deck.length = 1 :=
  lobby_start_cards_count_one deck40 ⟨["A", "B"], .NotStarted ["A"]⟩ "B" true
    ⟨["A", "B"], .Playing gAB⟩
    (some ⟨[("A", [⟨.Four, .Golds⟩]), ("B", [⟨.Four, .Swords⟩])], "A",
      ⟨.Four, .Cups⟩, [0, 1]⟩)
    gAB (by decide) (by decide)

/-! ### Machinery for the bidding-cursor invariant (C4) -/

lemma mem_alive_players (g : Game) (e : String × Player) :
    e ∈ g.alive_players ↔ e ∈ g.players ∧ 0 < e.2.lifes := by
  unfold Game.alive_players
  simp [List.mem_filter]

lemma stage_dealing_iff (g : Game) :
    g.get_cycle_stage = .Dealing ↔ (∀ e ∈ g.players, 0 < e.2.lifes → e.2.bid.isSome) := by
  unfold Game.get_cycle_stage Game.alive_players
  by_cases h : (g.players.filter (fun e => decide (0 < e.2.lifes))).any
      (fun e => e.2.bid.isNone) = true
  · rw [if_pos h]
    simp only [List.any_eq_true, List.mem_filter, decide_eq_true_eq] at h
    obtain ⟨e, ⟨hm, hal⟩, hnone⟩ := h
    constructor
    · intro hq
      exact absurd hq (by simp)
    · intro hall
      exfalso
      have hs := hall e hm hal
      rw [Option.isNone_iff_eq_none] at hnone
      rw [hnone] at hs
      simp at hs
  · rw [if_neg h]
    refine ⟨fun _ e hm hal => ?_, fun _ => rfl⟩
    by_contra hnb
    apply h
    simp only [List.any_eq_true, List.mem_filter, decide_eq_true_eq]
    refine ⟨e, ⟨hm, hal⟩, ?_⟩
    cases heb : e.2.bid with
    | none => rfl
    | some v => rw [heb] at hnb; simp at hnb

lemma stage_bidding_iff_not_dealing (g : Game) :
    g.get_cycle_stage = .Bidding ↔ ¬ g.get_cycle_stage = .Dealing := by
  unfold Game.get_cycle_stage
  split <;> simp

lemma map_player_getElem? (ps : List (String × Player)) (id : String)
    (f : Player → Player) (i : Nat) :
    (map_player ps id f)[i]? =
      (ps[i]?).map (fun e => if e.1 = id then (e.1, f e.2) else e) := by
  unfold map_player
  exact List.getElem?_map _ ps i

lemma map_player_keys (ps : List (String × Player)) (id : String) (f : Player → Player) :
    (map_player ps id f).map (fun e => e.1) = ps.map (fun e => e.1) := by
  unfold map_player
  rw [List.map_map]
  apply List.map_congr_left
  intro e _
  by_cases he : e.1 = id <;> simp [he]

lemma aliveIdxL_map_player (ps : List (String × Player)) (id : String)
    (f : Player → Player) (hf : ∀ pl, (f pl).lifes = pl.lifes) (i : Nat) :
    AliveIdxL (map_player ps id f) i ↔ AliveIdxL ps i := by
  unfold AliveIdxL
  rw [map_player_getElem?]
  rcases hpi : ps[i]? with _ | e
  · simp
  · by_cases he : e.1 = id <;> simp [he, hf]

lemma lookup_of_getElem?_nodup (ps : List (String × Player))
    (hnd : (ps.map (fun e => e.1)).Nodup) :
    ∀ (i : Nat) (e : String × Player), ps[i]? = some e → ps.lookup e.1 = some e.2 := by
  induction ps with
  | nil => intro i e h; simp at h
  | cons a rest ih =>
    intro i e h
    simp only [List.map_cons, List.nodup_cons] at hnd
    cases i with
    | zero =>
      rw [List.getElem?_cons_zero] at h
      injection h with h1
      obtain ⟨k, v⟩ := a
      rw [← h1]
      simp [List.lookup_cons]
    | succ i =>
      rw [List.getElem?_cons_succ] at h
      have hm : e ∈ rest := List.mem_iff_getElem?.2 ⟨i, h⟩
      obtain ⟨k, v⟩ := a
      have hne : e.1 ≠ k := by
        intro heq
        exact hnd.1 (heq ▸ List.mem_map.2 ⟨e, hm, rfl⟩)
      rw [List.lookup_cons]
      have hbeq : (e.1 == k) = false := beq_eq_false_iff_ne.2 hne
      rw [hbeq]
      exact ih hnd.2 i e h

lemma nodup_keys_ne (ps : List (String × Player))
    (hnd : (ps.map (fun e => e.1)).Nodup) (i j : Nat) (e e' : String × Player)
    (hi : ps[i]? = some e) (hj : ps[j]? = some e') (hij : i ≠ j) : e.1 ≠ e'.1 := by
  intro heq
  apply hij
  have hilen : i < ps.length := by
    by_contra hc
    rw [List.getElem?_eq_none (by omega)] at hi
    cases hi
  refine List.getElem?_inj ?_ hnd ?_
  · rw [List.length_map]
    exact hilen
  · rw [List.getElem?_map, List.getElem?_map, hi, hj]
    simp [heq]

lemma shift_spec (c : CyclicIterator) :
    (c.shift).current_index = 0
    ∧ (∀ x, x ∈ (c.shift).items ↔ x ∈ c.items)
    ∧ ((c.shift).items.Nodup ↔ c.items.Nodup) := by
  unfold CyclicIterator.shift CyclicIterator.reset
  split <;> simp [List.mem_rotate, List.nodup_rotate]

lemma findIdx_erase_aux (l : List Nat) (x : Nat) :
    (match l.findIdx? (fun y => y == x) with
     | none => l
     | some i => l.eraseIdx i) = l.erase x := by
  induction l with
  | nil => rfl
  | cons a rest ih =>
    rw [List.findIdx?_cons]
    by_cases ha : a = x
    · rw [if_pos (by simp [ha])]
      simp [List.erase_cons, ha]
    · rw [if_neg (by simp [ha]), List.findIdx?_succ]
      cases hf : rest.findIdx? (fun y => y == x) with
      | none =>
        have hx : x ∉ rest := by
          intro hm
          have := List.findIdx?_eq_none_iff.1 hf x hm
          simp at this
        rw [hf] at ih
        simp only [Option.map_none']
        rw [List.erase_cons, if_neg (by simp [ha])]
        rw [List.erase_of_not_mem hx]
      | some i =>
        rw [hf] at ih
        simp only [Option.map_some']
        show (a :: rest).eraseIdx (i + 1) = (a :: rest).erase x
        rw [List.eraseIdx_cons_succ, List.erase_cons, if_neg (by simp [ha])]
        rw [show rest.eraseIdx i = rest.erase x from ih]

lemma remove_spec (c : CyclicIterator) (x : Nat) :
    (c.remove x).items = c.items.erase x ∧ (c.remove x).current_index = c.current_index := by
  have haux := findIdx_erase_aux c.items x
  unfold CyclicIterator.remove
  cases hf : c.items.findIdx? (fun y => y == x) with
  | none =>
    rw [hf] at haux
    exact ⟨by simpa using haux, rfl⟩
  | some i =>
    rw [hf] at haux
    exact ⟨by simpa using haux, rfl⟩

lemma fold_remove_spec (dead : List Nat) : ∀ (c : CyclicIterator),
    (dead.foldl (fun it i => it.remove i) c).items
        = dead.foldl (fun l i => l.erase i) c.items
    ∧ (dead.foldl (fun it i => it.remove i) c).current_index = c.current_index := by
  induction dead with
  | nil => intro c; exact ⟨rfl, rfl⟩
  | cons d rest ih =>
    intro c
    rw [List.foldl_cons, List.foldl_cons]
    obtain ⟨h1, h2⟩ := ih (c.remove d)
    obtain ⟨r1, r2⟩ := remove_spec c d
    exact ⟨by rw [h1, r1], by rw [h2, r2]⟩

lemma fold_erase_spec (dead : List Nat) : ∀ (l : List Nat), l.Nodup →
    (dead.foldl (fun l i => l.erase i) l).Nodup
    ∧ (∀ x, x ∈ dead.foldl (fun l i => l.erase i) l ↔ x ∈ l ∧ x ∉ dead) := by
  induction dead with
  | nil =>
    intro l h
    exact ⟨h, fun x => by simp⟩
  | cons d rest ih =>
    intro l hnd
    rw [List.foldl_cons]
    obtain ⟨h1, h2⟩ := ih (l.erase d) (hnd.erase d)
    refine ⟨h1, fun x => ?_⟩
    rw [h2 x, hnd.mem_erase_iff]
    simp only [List.mem_cons]
    tauto

lemma mem_dead_indices (ps : List (String × Player)) (i : Nat) :
    i ∈ Game.dead_indices ps ↔ ∃ e, ps[i]? = some e ∧ e.2.lifes = 0 := by
  unfold Game.dead_indices
  simp only [List.mem_map, List.mem_filter]
  constructor
  · rintro ⟨y, ⟨hy, hdead⟩, rfl⟩
    exact ⟨y.2, List.mem_enum_iff_getElem?.1 hy, by simpa using hdead⟩
  · rintro ⟨e, hi, hd⟩
    exact ⟨(i, e), ⟨List.mem_enum_iff_getElem?.2 (by simpa using hi), by simpa using hd⟩, rfl⟩

lemma rl_getElem? (ps : List (String × Player)) (i : Nat) :
    ((ps.map Game.life_step).map Game.rounds_step)[i]?
      = (ps[i]?).map (fun e => Game.rounds_step (Game.life_step e)) := by
  rw [List.getElem?_map, List.getElem?_map, Option.map_map]
  rfl

lemma rl_key (e : String × Player) : (Game.rounds_step (Game.life_step e)).1 = e.1 := by
  unfold Game.rounds_step Game.life_step
  repeat' split
  all_goals rfl

lemma rl_bid (e : String × Player) :
    (Game.rounds_step (Game.life_step e)).2.bid = e.2.bid := by
  unfold Game.rounds_step Game.life_step
  repeat' split
  all_goals rfl

lemma rl_alive (e : String × Player) :
    (Game.rounds_step (Game.life_step e)).2.lifes ≠ 0 → e.2.lifes ≠ 0 := by
  unfold Game.rounds_step Game.life_step
  repeat' split
  all_goals simp_all
  all_goals omega

lemma rl_keys (ps : List (String × Player)) :
    ((ps.map Game.life_step).map Game.rounds_step).map (fun e => e.1)
      = ps.map (fun e => e.1) := by
  rw [List.map_map, List.map_map]
  apply List.map_congr_left
  intro e _
  exact rl_key e

lemma stage_bidding_iff_exists (g : Game) :
    g.get_cycle_stage = .Bidding
      ↔ ∃ (i : Nat) (e : String × Player),
          g.players[i]? = some e ∧ 0 < e.2.lifes ∧ e.2.bid = none := by
  rw [stage_bidding_iff_not_dealing, stage_dealing_iff]
  constructor
  · intro h
    push_neg at h
    obtain ⟨e, hm, hl, hb⟩ := h
    obtain ⟨i, hi⟩ := List.mem_iff_getElem?.1 hm
    refine ⟨i, e, hi, hl, ?_⟩
    cases heb : e.2.bid with
    | none => rfl
    | some v => rw [heb] at hb; simp at hb
  · rintro ⟨i, e, hi, hl, hb⟩ hall
    have := hall e (List.mem_iff_getElem?.2 ⟨i, hi⟩) hl
    rw [hb] at this
    simp at this

lemma stage_dealing_iff_forall (g : Game) :
    g.get_cycle_stage = .Dealing
      ↔ ∀ (i : Nat) (e : String × Player),
          g.players[i]? = some e → 0 < e.2.lifes → e.2.bid.isSome := by
  rw [stage_dealing_iff]
  constructor
  · intro h i e hi
    exact h e (List.mem_iff_getElem?.2 ⟨i, hi⟩)
  · intro h e hm
    obtain ⟨i, hi⟩ := List.mem_iff_getElem?.1 hm
    exact h i e hi

lemma get_cycle_stage_congr (g g' : Game)
    (hpt : ∀ i : Nat, (g'.players[i]?).map (fun e => (e.2.lifes, e.2.bid))
        = (g.players[i]?).map (fun e => (e.2.lifes, e.2.bid))) :
    g'.get_cycle_stage = g.get_cycle_stage := by
  by_cases h : g.get_cycle_stage = .Dealing
  · rw [h]
    rw [stage_dealing_iff_forall] at h ⊢
    intro i e' hi' hl'
    have hp := hpt i
    rw [hi'] at hp
    cases hg : g.players[i]? with
    | none => rw [hg] at hp; simp at hp
    | some e =>
      rw [hg] at hp
      simp only [Option.map_some'] at hp
      injection hp with hp1
      have hl : (e'.2.lifes, e'.2.bid) = (e.2.lifes, e.2.bid) := hp1
      injection hl with hla hlb
      have := h i e hg (by omega)
      rw [← hlb] at this
      exact this
  · have hb : g.get_cycle_stage = .Bidding := (stage_bidding_iff_not_dealing g).2 h
    rw [hb]
    rw [stage_bidding_iff_exists] at hb ⊢
    obtain ⟨i, e, hi, hl, hbid⟩ := hb
    have hp := hpt i
    rw [hi] at hp
    cases hg : g'.players[i]? with
    | none => rw [hg] at hp; simp at hp
    | some e' =>
      rw [hg] at hp
      simp only [Option.map_some'] at hp
      injection hp with hp1
      have hl' : (e'.2.lifes, e'.2.bid) = (e.2.lifes, e.2.bid) := hp1
      injection hl' with hla hlb
      exact ⟨i, e', hg, by omega, by rw [hlb, hbid]⟩

lemma award_points_ok (g : Game) (ret : List Turn × Game)
    (h : g.award_points = .ok ret) :
    ∃ (v : Nat) (w : Turn) (rest : List (Nat × Turn)), g.pile = (v, w) :: rest
      ∧ ret.2 = { g with
          pile := [],
          players := map_player g.players w.player_id
            (fun p => { p with rounds := p.rounds + 1 }) } := by
  unfold Game.award_points at h
  cases hp : g.pile with
  | nil => rw [hp] at h; simp at h
  | cons hd tl =>
    obtain ⟨v, w⟩ := hd
    rw [hp] at h
    dsimp only at h
    cases hl : g.players.lookup w.player_id with
    | none => rw [hl] at h; simp at h
    | some pl =>
      rw [hl] at h
      dsimp only at h
      injection h with h1
      exact ⟨v, w, tl, rfl, by rw [← h1]⟩

lemma start_new_set_ok (dk : List Card) (g g' : Game)
    (h : g.start_new_set dk = .ok g') :
    ∃ (count : Nat) (ps' : List (String × Player)) (rest : List Card) (up : Card),
      Game.deal_decks dk count g.players = .ok (ps', rest)
      ∧ g'.players = ps'
      ∧ g'.pile = g.pile ∧ g'.bidding_iter = g.bidding_iter
      ∧ g'.round_iter = g.round_iter := by
  unfold Game.start_new_set at h
  cases hm : Game.get_new_cards_mode g.dealing_mode g.cards_count (g.alive_players).length with
  | error m => rw [hm] at h; simp at h
  | ok pr =>
    obtain ⟨mode, count⟩ := pr
    rw [hm] at h
    dsimp only at h
    cases hd : Game.deal_decks dk count g.players with
    | error m => rw [hd] at h; simp at h
    | ok pr2 =>
      obtain ⟨ps', rest⟩ := pr2
      rw [hd] at h
      dsimp only at h
      cases h0 : rest[0]? with
      | none => rw [h0] at h; simp at h
      | some up =>
        rw [h0] at h
        dsimp only at h
        injection h with h1
        exact ⟨count, ps', rest, up, hd,
          by rw [← h1], by rw [← h1], by rw [← h1], by rw [← h1]⟩

lemma deal_decks_spec : ∀ (ps : List (String × Player)) (deck : List Card) (n : Nat)
    (ps' : List (String × Player)) (rest : List Card),
    Game.deal_decks deck n ps = .ok (ps', rest) →
    ps'.length = ps.length
    ∧ ∀ (i : Nat) (e' : String × Player), ps'[i]? = some e' →
        ∃ e : String × Player, ps[i]? = some e ∧ e'.1 = e.1 ∧ e'.2.lifes = e.2.lifes
          ∧ (0 < e.2.lifes → e'.2.bid = none) ∧ (e.2.lifes = 0 → e' = e) := by
  intro ps
  induction ps with
  | nil =>
    intro deck n ps' rest h
    simp only [Game.deal_decks] at h
    injection h with h1
    injection h1 with h1a h1b
    constructor
    · rw [← h1a]
    · intro i e' hi
      rw [← h1a] at hi
      simp at hi
  | cons a restp ih =>
    intro deck n ps' rest h
    simp only [Game.deal_decks] at h
    by_cases hal : 0 < a.2.lifes
    · rw [if_pos (by simpa using hal)] at h
      by_cases hlen : n ≤ deck.length
      · rw [if_pos hlen] at h
        cases hrec : Game.deal_decks (deck.drop n) n restp with
        | error m => rw [hrec] at h; exact absurd h (by simp)
        | ok pr =>
          obtain ⟨ps1, d1⟩ := pr
          rw [hrec] at h
          injection h with h1
          injection h1 with h1a h1b
          obtain ⟨hl, hspec⟩ := ih (deck.drop n) n ps1 d1 hrec
          constructor
          · rw [← h1a]
            simp [hl]
          · intro i e' hi
            rw [← h1a] at hi
            cases i with
            | zero =>
              rw [List.getElem?_cons_zero] at hi
              injection hi with hi1
              refine ⟨a, List.getElem?_cons_zero, ?_, ?_, fun _ => ?_, fun h0 => ?_⟩
              · rw [← hi1]
              · rw [← hi1]
              · rw [← hi1]
              · exact absurd h0 (by omega)
            | succ i =>
              rw [List.getElem?_cons_succ] at hi
              obtain ⟨e, he, hspec'⟩ := hspec i e' hi
              exact ⟨e, by rw [List.getElem?_cons_succ]; exact he, hspec'⟩
      · rw [if_neg hlen] at h
        exact absurd h (by simp)
    · rw [if_neg (by simpa using hal)] at h
      cases hrec : Game.deal_decks deck n restp with
      | error m => rw [hrec] at h; exact absurd h (by simp)
      | ok pr =>
        obtain ⟨ps1, d1⟩ := pr
        rw [hrec] at h
        injection h with h1
        injection h1 with h1a h1b
        obtain ⟨hl, hspec⟩ := ih deck n ps1 d1 hrec
        constructor
        · rw [← h1a]
          simp [hl]
        · intro i e' hi
          rw [← h1a] at hi
          cases i with
          | zero =>
            rw [List.getElem?_cons_zero] at hi
            injection hi with hi1
            refine ⟨a, List.getElem?_cons_zero, by rw [← hi1], by rw [← hi1],
              fun hc => absurd hc hal, fun _ => hi1.symm⟩
          | succ i =>
            rw [List.getElem?_cons_succ] at hi
            obtain ⟨e, he, hspec'⟩ := hspec i e' hi
            exact ⟨e, by rw [List.getElem?_cons_succ]; exact he, hspec'⟩

lemma init_decks_keys (names : List String) : ∀ (deck : List Card) (cards : Nat)
    (ps : List (String × Player)) (rest : List Card),
    Game.init_decks deck cards names = .ok (ps, rest) →
    ps.map (fun e => e.1) = names := by
  induction names with
  | nil =>
    intro deck cards ps rest h
    simp only [Game.init_decks] at h
    injection h with h1
    injection h1 with h1a h1b
    rw [← h1a]
    rfl
  | cons name restn ih =>
    intro deck cards ps rest h
    simp only [Game.init_decks] at h
    by_cases hlen : cards ≤ deck.length
    · rw [if_pos hlen] at h
      cases hrec : Game.init_decks (deck.drop cards) cards restn with
      | error m => rw [hrec] at h; exact absurd h (by simp)
      | ok pr =>
        obtain ⟨ps1, d1⟩ := pr
        rw [hrec] at h
        injection h with h1
        injection h1 with h1a h1b
        rw [← h1a, List.map_cons, ih (deck.drop cards) cards ps1 d1 hrec]
    · rw [if_neg hlen] at h
      exact absurd h (by simp)

lemma init_decks_fields (names : List String) : ∀ (deck : List Card) (cards : Nat)
    (ps : List (String × Player)) (rest : List Card),
    Game.init_decks deck cards names = .ok (ps, rest) →
    ∀ e ∈ ps, e.2.bid = none ∧ e.2.lifes = 5 := by
  induction names with
  | nil =>
    intro deck cards ps rest h e he
    simp only [Game.init_decks] at h
    injection h with h1
    injection h1 with h1a h1b
    rw [← h1a] at he
    simp at he
  | cons name restn ih =>
    intro deck cards ps rest h e he
    simp only [Game.init_decks] at h
    by_cases hlen : cards ≤ deck.length
    · rw [if_pos hlen] at h
      cases hrec : Game.init_decks (deck.drop cards) cards restn with
      | error m => rw [hrec] at h; exact absurd h (by simp)
      | ok pr =>
        obtain ⟨ps1, d1⟩ := pr
        rw [hrec] at h
        injection h with h1
        injection h1 with h1a h1b
        rw [← h1a] at he
        rcases List.mem_cons.1 he with rfl | hm
        · exact ⟨rfl, rfl⟩
        · exact ih (deck.drop cards) cards ps1 d1 hrec e hm
    · rw [if_neg hlen] at h
      exact absurd h (by simp)

lemma indexmap_insert_append (acc : List (String × Player)) (k : String) (v : Player) :
    ∀ (hk : k ∉ acc.map (fun e => e.1)), indexmap_insert acc k v = acc ++ [(k, v)] := by
  induction acc with
  | nil => intro hk; rfl
  | cons a rest ih =>
    intro hk
    simp only [List.map_cons, List.mem_cons] at hk
    push_neg at hk
    unfold indexmap_insert
    rw [if_neg (fun he => hk.1 he.symm)]
    rw [ih hk.2]
    rfl

lemma indexmap_collect_self_aux (ps : List (String × Player)) :
    ∀ (acc : List (String × Player)),
    ((acc ++ ps).map (fun e => e.1)).Nodup →
    ps.foldl (fun acc e => indexmap_insert acc e.1 e.2) acc = acc ++ ps := by
  induction ps with
  | nil => intro acc _; simp
  | cons a rest ih =>
    intro acc hnd
    rw [List.foldl_cons]
    have hk : a.1 ∉ acc.map (fun e => e.1) := by
      intro hmem
      rw [List.map_append, List.nodup_append] at hnd
      exact hnd.2.2 hmem (by simp)
    rw [indexmap_insert_append acc a.1 a.2 hk]
    have : (acc ++ [(a.1, a.2)]) ++ rest = acc ++ a :: rest := by simp
    rw [ih (acc ++ [(a.1, a.2)]) (by simpa [this] using hnd), this]

lemma indexmap_collect_self (ps : List (String × Player))
    (hnd : (ps.map (fun e => e.1)).Nodup) : Game.indexmap_collect ps = ps := by
  unfold Game.indexmap_collect
  simpa using indexmap_collect_self_aux ps [] (by simpa using hnd)

lemma map_player_entry (ps : List (String × Player)) (id : String) (f : Player → Player)
    (hb : ∀ pl, (f pl).bid = pl.bid) (hl : ∀ pl, (f pl).lifes = pl.lifes) :
    ∀ (v : Nat) (e' : String × Player), (map_player ps id f)[v]? = some e' →
      ∃ e0, ps[v]? = some e0 ∧ e'.1 = e0.1 ∧ e'.2.bid = e0.2.bid
        ∧ e'.2.lifes = e0.2.lifes := by
  intro v e' hv
  rw [map_player_getElem?] at hv
  cases hg : ps[v]? with
  | none => rw [hg] at hv; simp at hv
  | some e0 =>
    rw [hg] at hv
    simp only [Option.map_some'] at hv
    injection hv with hv1
    refine ⟨e0, rfl, ?_, ?_, ?_⟩ <;> rw [← hv1] <;>
      by_cases hk : e0.1 = id <;> simp [hk, hb, hl]

lemma rl_entry (ps : List (String × Player)) :
    ∀ (v : Nat) (e' : String × Player),
      ((ps.map Game.life_step).map Game.rounds_step)[v]? = some e' →
      ∃ e0, ps[v]? = some e0 ∧ e'.1 = e0.1 ∧ e'.2.bid = e0.2.bid
        ∧ (e'.2.lifes ≠ 0 → e0.2.lifes ≠ 0) := by
  intro v e' hv
  rw [rl_getElem?] at hv
  cases hg : ps[v]? with
  | none => rw [hg] at hv; simp at hv
  | some e0 =>
    rw [hg] at hv
    simp only [Option.map_some'] at hv
    injection hv with hv1
    exact ⟨e0, rfl, by rw [← hv1]; exact rl_key e0, by rw [← hv1]; exact rl_bid e0,
      by rw [← hv1]; exact rl_alive e0⟩

lemma stage_deal_play (g : Game) (t : Turn) :
    (g.deal_play t).get_cycle_stage = g.get_cycle_stage := by
  apply get_cycle_stage_congr
  intro i
  have hp : (g.deal_play t).players
      = map_player g.players t.player_id
        (fun p => { p with deck := p.deck.filter (fun c => !(c = t.card)) }) := rfl
  rw [hp, map_player_getElem?]
  cases hg : g.players[i]? with
  | none => simp
  | some e => by_cases he : e.1 = t.player_id <;> simp [he]

lemma peek_current_bidder_none (g : Game) (h : g.peek_current_bidder = .ok none) :
    g.bidding_iter.peek = none := by
  unfold Game.peek_current_bidder at h
  split at h
  · assumption
  · split at h <;> simp at h

lemma inv_new (deck : List Card) (names : List String) (n : Nat) (g : Game)
    (hnodup : names.Nodup) (h : Game.new deck names n = .ok (.ok g)) : GameInv g := by
  obtain ⟨hc, hpile, hbit, h2, ps, rest, hinit, hplayers⟩ := new_ok_shape deck names n g h
  have hkeys : ps.map (fun e => e.1) = names := init_decks_keys names deck n ps rest hinit
  have hps : g.players = ps := by
    rw [hplayers, indexmap_collect_self ps (by rw [hkeys]; exact hnodup)]
  have hlen : ps.length = names.length := by
    rw [← hkeys, List.length_map]
  have hfields := init_decks_fields names deck n ps rest hinit
  have hitems : g.bidding_iter.items = List.range names.length := by
    rw [hbit]; rfl
  have hidx : g.bidding_iter.current_index = 0 := by
    rw [hbit]; rfl
  have halive : ∀ i : Nat, AliveIdxL g.players i ↔ i < names.length := by
    intro i
    rw [hps]
    constructor
    · rintro ⟨e, he, -⟩
      obtain ⟨hlt, -⟩ := List.getElem?_eq_some.1 he
      omega
    · intro hi
      have hi' : i < ps.length := by omega
      refine ⟨ps[i], List.getElem?_eq_getElem hi', ?_⟩
      have := (hfields ps[i] (List.getElem_mem hi')).2
      omega
  constructor
  · rw [hps, hkeys]
    exact hnodup
  · rw [hitems]
    exact List.nodup_range names.length
  · intro i
    rw [hitems, List.mem_range, halive i]
  · intro _
    refine ⟨hpile, ?_⟩
    intro j v hjv
    rw [hidx]
    refine ⟨fun hj0 => absurd hj0 (by omega), fun _ => ?_⟩
    rintro ⟨e, he, hbs⟩
    have hv : v < names.length := by
      rw [hitems] at hjv
      have := List.mem_iff_getElem?.2 ⟨j, hjv⟩
      exact List.mem_range.1 this
    rw [hps] at he
    have := (hfields e (List.mem_iff_getElem?.2 ⟨v, he⟩)).1
    rw [this] at hbs
    simp at hbs
  · intro _
    exact hidx

lemma inv_bid (g : Game) (p : String) (b : Nat) (g' : Game) (s : BiddingState)
    (hinv : GameInv g) (h : Game.bid g p b = .ok (g', .ok s)) : GameInv g' := by
  unfold Game.bid at h
  by_cases hstage : g.get_cycle_stage = CycleStage.Dealing
  · rw [if_pos hstage] at h; simp at h
  rw [if_neg hstage] at h
  have hstageB : g.get_cycle_stage = .Bidding := (stage_bidding_iff_not_dealing g).2 hstage
  by_cases hv : (!g.validate_bid b) = true
  · rw [if_pos hv] at h; simp at h
  rw [if_neg hv] at h
  cases hcb : g.peek_current_bidder with
  | error m => rw [hcb] at h; simp at h
  | ok cb =>
    rw [hcb] at h
    dsimp only at h
    by_cases hne : some p ≠ cb
    · rw [if_pos hne] at h; simp at h
    rw [if_neg hne] at h
    have hcbp : cb = some p := (not_not.1 hne).symm
    cases hlk : g.players.lookup p with
    | none => rw [hlk] at h; simp at h
    | some player =>
      rw [hlk] at h
      dsimp only at h
      by_cases hbids : player.bid.isSome = true
      · rw [if_pos hbids] at h; simp at h
      rw [if_neg hbids] at h
      obtain ⟨i, e, hpeek, hie, hep⟩ := peek_current_bidder_some g p (by rw [hcb, hcbp])
      have hpeek' : g.bidding_iter.items[g.bidding_iter.current_index]? = some i := hpeek
      have hlk2 := lookup_of_getElem?_nodup g.players hinv.keys_nodup i e hie
      rw [hep, hlk] at hlk2
      have hplayer : player = e.2 := by injection hlk2
      have hbe : e.2.bid = none := by
        rw [← hplayer]
        cases hpb : player.bid with
        | none => rfl
        | some v => rw [hpb] at hbids; simp at hbids
      have hidx_lt : g.bidding_iter.current_index < g.bidding_iter.items.length :=
        (List.getElem?_eq_some.1 hpeek').1
      have hadvp : (g.bid_advance p b).players
          = map_player g.players p (fun pl => { pl with bid := some b }) := rfl
      have hF1 : (g.bid_advance p b).players[i]? = some (e.1, { e.2 with bid := some b }) := by
        rw [hadvp, map_player_getElem?, hie]
        simp only [Option.map_some']
        rw [if_pos hep]
      have hFother : ∀ v, v ≠ i → (g.bid_advance p b).players[v]? = g.players[v]? := by
        intro v hvi
        rw [hadvp, map_player_getElem?]
        cases hgv : g.players[v]? with
        | none => simp
        | some e' =>
          simp only [Option.map_some']
          have hne' : e'.1 ≠ p := by
            have := nodup_keys_ne g.players hinv.keys_nodup v i e' e hgv hie hvi
            rw [hep] at this
            exact this
          rw [if_neg hne']
      have hBidAt_i : BidAtL (g.bid_advance p b).players i :=
        ⟨(e.1, { e.2 with bid := some b }), hF1, rfl⟩
      have hBidIff : ∀ v, v ≠ i →
          (BidAtL (g.bid_advance p b).players v ↔ BidAtL g.players v) := by
        intro v hvi
        unfold BidAtL
        rw [hFother v hvi]
      have hAliveIff : ∀ v, AliveIdxL (g.bid_advance p b).players v ↔ AliveIdxL g.players v := by
        intro v
        rw [hadvp]
        exact aliveIdxL_map_player g.players p (fun pl => { pl with bid := some b })
          (fun pl => rfl) v
      have hBidMono : ∀ v, BidAtL g.players v → BidAtL (g.bid_advance p b).players v := by
        intro v hv
        by_cases hvi : v = i
        · rw [hvi]; exact hBidAt_i
        · exact (hBidIff v hvi).2 hv
      have hcur := (hinv.bidding_inv hstageB).2
      have hpileB := (hinv.bidding_inv hstageB).1
      cases hpk : (g.bid_advance p b).peek_current_bidder with
      | error m => rw [hpk] at h; simp at h
      | ok opt =>
        cases opt with
        | some next =>
          rw [hpk] at h
          dsimp only at h
          injection h with h1
          injection h1 with h1a h1b
          rw [← h1a]
          obtain ⟨v2, e2, hpeek2, hie2, hep2⟩ := peek_current_bidder_some _ next hpk
          have hjv2 : g.bidding_iter.items[g.bidding_iter.current_index + 1]? = some v2 :=
            hpeek2
          have hv2i : v2 ≠ i := by
            intro heq
            have h12 : g.bidding_iter.items[g.bidding_iter.current_index]?
                = g.bidding_iter.items[g.bidding_iter.current_index + 1]? := by
              rw [hpeek', hjv2, heq]
            have := List.getElem?_inj hidx_lt hinv.items_nodup h12
            omega
          have hunbid2 : ¬ BidAtL g.players v2 :=
            (hcur _ v2 hjv2).2 (by omega)
          have halive2 : AliveIdxL g.players v2 :=
            (hinv.mem_iff v2).1 (List.mem_iff_getElem?.2 ⟨_, hjv2⟩)
          have hstageAdv : (g.bid_advance p b).get_cycle_stage = .Bidding := by
            rw [stage_bidding_iff_exists]
            obtain ⟨ea, hea, hal⟩ := halive2
            have hea' : (g.bid_advance p b).players[v2]? = some ea := by
              rw [hFother v2 hv2i]; exact hea
            refine ⟨v2, ea, hea', by omega, ?_⟩
            cases heb : ea.2.bid with
            | none => rfl
            | some bb => exact absurd ⟨ea, hea, by rw [heb]; rfl⟩ hunbid2
          constructor
          · rw [hadvp, map_player_keys]
            exact hinv.keys_nodup
          · exact hinv.items_nodup
          · intro v
            exact (hinv.mem_iff v).trans (hAliveIff v).symm
          · intro _
            refine ⟨hpileB, ?_⟩
            intro j v hjv
            have hjv' : g.bidding_iter.items[j]? = some v := hjv
            constructor
            · intro hj
              have hj' : j < g.bidding_iter.current_index + 1 := hj
              rcases Nat.lt_succ_iff_lt_or_eq.1 hj' with hlt | heq
              · exact hBidMono v ((hcur j v hjv').1 hlt)
              · have hvi : v = i := by
                  rw [heq] at hjv'
                  have := hpeek'.symm.trans hjv'
                  injection this with hvv
                  exact hvv.symm
                rw [hvi]
                exact hBidAt_i
            · intro hj
              have hj' : g.bidding_iter.current_index + 1 ≤ j := hj
              have hvni : v ≠ i := by
                intro heq
                have h12 : g.bidding_iter.items[g.bidding_iter.current_index]?
                    = g.bidding_iter.items[j]? := by
                  rw [hpeek', hjv', heq]
                have := List.getElem?_inj hidx_lt hinv.items_nodup h12
                omega
              intro hb2
              exact (hcur j v hjv').2 (by omega) ((hBidIff v hvni).1 hb2)
          · intro hD
            rw [hstageAdv] at hD
            simp at hD
        | none =>
          rw [hpk] at h
          dsimp only at h
          cases hpd : (Game.bid_shifted (g.bid_advance p b)).peek_current_dealer with
          | error m => rw [hpd] at h; simp at h
          | ok od =>
            cases od with
            | none => rw [hpd] at h; simp at h
            | some next =>
              rw [hpd] at h
              dsimp only at h
              injection h with h1
              injection h1 with h1a h1b
              rw [← h1a]
              have hpknone : (g.bid_advance p b).bidding_iter.peek = none :=
                peek_current_bidder_none _ hpk
              have hlenle : g.bidding_iter.items.length
                  ≤ g.bidding_iter.current_index + 1 := by
                have hn : g.bidding_iter.items[g.bidding_iter.current_index + 1]? = none :=
                  hpknone
                exact List.getElem?_eq_none_iff.1 hn
              have hallbid : ∀ v, AliveIdxL g.players v →
                  BidAtL (g.bid_advance p b).players v := by
                intro v hav
                obtain ⟨j, hjv⟩ := List.mem_iff_getElem?.1 ((hinv.mem_iff v).2 hav)
                have hjlt : j < g.bidding_iter.items.length :=
                  (List.getElem?_eq_some.1 hjv).1
                by_cases hji : j < g.bidding_iter.current_index
                · exact hBidMono v ((hcur j v hjv).1 hji)
                · have hjeq : j = g.bidding_iter.current_index := by omega
                  rw [hjeq] at hjv
                  have hvi : v = i := by
                    have := hpeek'.symm.trans hjv
                    injection this with hvv
                    exact hvv.symm
                  rw [hvi]
                  exact hBidAt_i
              have hstageShift :
                  (Game.bid_shifted (g.bid_advance p b)).get_cycle_stage = .Dealing := by
                have hsame : (Game.bid_shifted (g.bid_advance p b)).get_cycle_stage
                    = (g.bid_advance p b).get_cycle_stage := rfl
                rw [hsame, stage_dealing_iff_forall]
                intro v ev hev hl
                have hev0 : (g.bid_advance p b).players[v]? = some ev := hev
                have hbv : BidAtL (g.bid_advance p b).players v := by
                  apply hallbid
                  rw [← hAliveIff v]
                  exact ⟨ev, hev0, by omega⟩
                obtain ⟨ev', hev', hbs⟩ := hbv
                rw [hev0] at hev'
                injection hev' with heq
                rw [heq]
                exact hbs
              constructor
              · rw [show (Game.bid_shifted (g.bid_advance p b)).players = (g.bid_advance p b).players from rfl, hadvp, map_player_keys]
                exact hinv.keys_nodup
              · exact ((shift_spec (g.bid_advance p b).bidding_iter).2.2).2
                  hinv.items_nodup
              · intro v
                have hsi : (Game.bid_shifted (g.bid_advance p b)).bidding_iter
                    = (g.bid_advance p b).bidding_iter.shift := rfl
                rw [hsi, (shift_spec (g.bid_advance p b).bidding_iter).2.1 v]
                exact (hinv.mem_iff v).trans (hAliveIff v).symm
              · intro hB
                rw [hstageShift] at hB
                simp at hB
              · intro _
                exact (shift_spec (g.bid_advance p b).bidding_iter).1

lemma inv_after_remove (g2 g : Game)
    (hinv : GameInv g)
    (hstageD : g.get_cycle_stage = .Dealing)
    (hkeys2 : g2.players.map (fun e => e.1) = g.players.map (fun e => e.1))
    (hentry2 : ∀ (v : Nat) (e' : String × Player), g2.players[v]? = some e' →
        ∃ e0, g.players[v]? = some e0 ∧ e'.1 = e0.1 ∧ e'.2.bid = e0.2.bid
          ∧ e'.2.lifes = e0.2.lifes)
    (hlen2 : g2.players.length = g.players.length)
    (hbit2 : g2.bidding_iter = g.bidding_iter) :
    GameInv (Game.round_shifted g2.remove_lifes)
    ∧ (Game.round_shifted g2.remove_lifes).get_cycle_stage = .Dealing := by
  have hPS : (Game.round_shifted g2.remove_lifes).players
      = (g2.players.map Game.life_step).map Game.rounds_step := rfl
  have hfold := fold_remove_spec
    (Game.dead_indices ((g2.players.map Game.life_step).map Game.rounds_step))
    g2.bidding_iter
  have hit : (Game.round_shifted g2.remove_lifes).bidding_iter.items
      = (Game.dead_indices ((g2.players.map Game.life_step).map Game.rounds_step)).foldl
          (fun l i => l.erase i) g.bidding_iter.items := by
    rw [show (Game.round_shifted g2.remove_lifes).bidding_iter
        = g2.remove_lifes.bidding_iter from rfl]
    rw [show g2.remove_lifes.bidding_iter
        = (Game.dead_indices ((g2.players.map Game.life_step).map Game.rounds_step)).foldl
            (fun it i => it.remove i) g2.bidding_iter from rfl]
    rw [hfold.1, hbit2]
  have hix : (Game.round_shifted g2.remove_lifes).bidding_iter.current_index
      = g.bidding_iter.current_index := by
    rw [show (Game.round_shifted g2.remove_lifes).bidding_iter
        = g2.remove_lifes.bidding_iter from rfl]
    rw [show g2.remove_lifes.bidding_iter
        = (Game.dead_indices ((g2.players.map Game.life_step).map Game.rounds_step)).foldl
            (fun it i => it.remove i) g2.bidding_iter from rfl]
    rw [hfold.2, hbit2]
  have hentry : ∀ (v : Nat) (e' : String × Player),
      ((g2.players.map Game.life_step).map Game.rounds_step)[v]? = some e' →
      ∃ e0, g.players[v]? = some e0 ∧ e'.1 = e0.1 ∧ e'.2.bid = e0.2.bid
        ∧ (e'.2.lifes ≠ 0 → e0.2.lifes ≠ 0) := by
    intro v e' hv
    obtain ⟨e2, he2, hk2, hb2, hl2⟩ := rl_entry g2.players v e' hv
    obtain ⟨e0, he0, hk0, hb0, hl0⟩ := hentry2 v e2 he2
    exact ⟨e0, he0, by rw [hk2, hk0], by rw [hb2, hb0],
      fun hh => by rw [← hl0]; exact hl2 hh⟩
  have hlenPS : ((g2.players.map Game.life_step).map Game.rounds_step).length
      = g.players.length := by
    rw [List.length_map, List.length_map, hlen2]
  have hstage' : (Game.round_shifted g2.remove_lifes).get_cycle_stage = .Dealing := by
    rw [stage_dealing_iff_forall]
    intro v e' he' hl'
    obtain ⟨e0, he0, -, hbq, hlq⟩ := hentry v e' he'
    have := (stage_dealing_iff_forall g).1 hstageD v e0 he0
      (by have := hlq (by omega); omega)
    rw [hbq]
    exact this
  have hfe := fold_erase_spec
    (Game.dead_indices ((g2.players.map Game.life_step).map Game.rounds_step))
    g.bidding_iter.items hinv.items_nodup
  have hmem : ∀ v, v ∈ (Game.round_shifted g2.remove_lifes).bidding_iter.items
      ↔ AliveIdxL ((g2.players.map Game.life_step).map Game.rounds_step) v := by
    intro v
    rw [hit, hfe.2 v, hinv.mem_iff v]
    constructor
    · rintro ⟨hal, hnd⟩
      obtain ⟨e0, he0, hl0⟩ := hal
      have hvlt : v < ((g2.players.map Game.life_step).map Game.rounds_step).length := by
        rw [hlenPS]
        exact (List.getElem?_eq_some.1 he0).1
      obtain ⟨e', he'⟩ : ∃ e', ((g2.players.map Game.life_step).map Game.rounds_step)[v]?
          = some e' := ⟨_, List.getElem?_eq_getElem hvlt⟩
      refine ⟨e', he', ?_⟩
      intro hz
      exact hnd ((mem_dead_indices _ v).2 ⟨e', he', hz⟩)
    · rintro ⟨e', he', hl'⟩
      obtain ⟨e0, he0, -, -, hlq⟩ := hentry v e' he'
      refine ⟨⟨e0, he0, hlq hl'⟩, ?_⟩
      intro hd
      obtain ⟨ee, hee, hz⟩ := (mem_dead_indices _ v).1 hd
      rw [he'] at hee
      injection hee with heq
      rw [← heq] at hz
      exact hl' hz
  refine ⟨⟨?_, ?_, ?_, ?_, ?_⟩, hstage'⟩
  · rw [hPS, rl_keys, hkeys2]
    exact hinv.keys_nodup
  · rw [hit]
    exact hfe.1
  · intro v
    rw [hmem v]
    exact Iff.rfl
  · intro hB
    rw [hstage'] at hB
    simp at hB
  · intro _
    rw [hix]
    exact hinv.dealing_idx hstageD

lemma deal_award_facts (g : Game) (t : Turn) (pile1 : List Turn) (g2 : Game)
    (haw : (g.deal_play t).award_points = .ok (pile1, g2)) :
    g2.pile = []
    ∧ g2.bidding_iter = g.bidding_iter
    ∧ g2.players.map (fun e => e.1) = g.players.map (fun e => e.1)
    ∧ g2.players.length = g.players.length
    ∧ (∀ (v : Nat) (e' : String × Player), g2.players[v]? = some e' →
        ∃ e0, g.players[v]? = some e0 ∧ e'.1 = e0.1 ∧ e'.2.bid = e0.2.bid
          ∧ e'.2.lifes = e0.2.lifes) := by
  obtain ⟨v0, w, prest, hpile, hg2⟩ := award_points_ok _ _ haw
  have hg2e : g2 = { g.deal_play t with
      pile := [],
      players := map_player (g.deal_play t).players w.player_id
        (fun p => { p with rounds := p.rounds + 1 }) } := hg2
  have hdpp : (g.deal_play t).players
      = map_player g.players t.player_id
        (fun p => { p with deck := p.deck.filter (fun c => !(c = t.card)) }) := rfl
  have hg2p : g2.players = map_player (g.deal_play t).players w.player_id
      (fun p => { p with rounds := p.rounds + 1 }) := by rw [hg2e]
  have hkeys2 : g2.players.map (fun e => e.1) = g.players.map (fun e => e.1) := by
    rw [hg2p, map_player_keys, hdpp, map_player_keys]
  have hlen2 : g2.players.length = g.players.length := by
    have h1 := congrArg List.length hkeys2
    rwa [List.length_map, List.length_map] at h1
  refine ⟨by rw [hg2e], by rw [hg2e]; rfl, hkeys2, hlen2, ?_⟩
  intro v e' hv
  rw [hg2p] at hv
  obtain ⟨e1, he1, hk1, hb1, hl1⟩ :=
    map_player_entry _ _ (fun p => { p with rounds := p.rounds + 1 })
      (fun pl => rfl) (fun pl => rfl) v e' hv
  rw [hdpp] at he1
  obtain ⟨e0, he0, hk0, hb0, hl0⟩ :=
    map_player_entry _ _ (fun p => { p with deck := p.deck.filter (fun c => !(c = t.card)) })
      (fun pl => rfl) (fun pl => rfl) v e1 he1
  exact ⟨e0, he0, by rw [hk1, hk0], by rw [hb1, hb0], by rw [hl1, hl0]⟩

lemma inv_deal (dk : List Card) (g : Game) (t : Turn) (g' : Game) (s : DealState)
    (hinv : GameInv g) (h : Game.deal dk g t = .ok (g', .ok s)) : GameInv g' := by
  unfold Game.deal at h
  by_cases hstage : g.get_cycle_stage = CycleStage.Bidding
  · rw [if_pos hstage] at h
    simp at h
  rw [if_neg hstage] at h
  have hstageD : g.get_cycle_stage = .Dealing := by
    by_contra hD
    exact hstage ((stage_bidding_iff_not_dealing g).2 hD)
  cases hcd : g.peek_current_dealer with
  | error m => rw [hcd] at h; dsimp only at h; simp at h
  | ok current_dealer =>
  rw [hcd] at h
  dsimp only at h
  cases hlk : g.players.lookup t.player_id with
  | none => rw [hlk] at h; dsimp only at h; simp at h
  | some player =>
  rw [hlk] at h
  dsimp only at h
  by_cases hturn : current_dealer ≠ some t.player_id
  · rw [if_pos hturn] at h
    simp at h
  rw [if_neg hturn] at h
  by_cases hcard : (!(player.deck.contains t.card)) = true
  · rw [if_pos hcard] at h
    simp at h
  rw [if_neg hcard] at h
  by_cases hempty : (((g.deal_play t).alive_players).all (fun e => e.2.deck.isEmpty)) = true
  · rw [if_pos hempty] at h
    cases haw : (g.deal_play t).award_points with
    | error m => rw [haw] at h; dsimp only at h; simp at h
    | ok pr =>
    obtain ⟨pile1, g2⟩ := pr
    rw [haw] at h
    dsimp only at h
    obtain ⟨hg2pile, hbit2, hkeys2, hlen2, hentry2⟩ := deal_award_facts g t pile1 g2 haw
    obtain ⟨hinvR, hstageR⟩ := inv_after_remove g2 g hinv hstageD hkeys2 hentry2 hlen2 hbit2
    cases hlen : ((Game.round_shifted g2.remove_lifes).alive_players).length with
    | zero =>
      rw [hlen] at h
      dsimp only at h
      injection h with h1
      injection h1 with hg hs
      rw [← hg]
      exact hinvR
    | succ n =>
    cases n with
    | zero =>
      rw [hlen] at h
      dsimp only at h
      cases hw : ((Game.round_shifted g2.remove_lifes).alive_players)[0]? with
      | none => rw [hw] at h; dsimp only at h; simp at h
      | some w0 =>
      rw [hw] at h
      dsimp only at h
      injection h with h1
      injection h1 with hg hs
      rw [← hg]
      exact hinvR
    | succ m =>
    rw [hlen] at h
    dsimp only at h
    cases hsns : (Game.round_shifted g2.remove_lifes).start_new_set dk with
    | error m2 => rw [hsns] at h; dsimp only at h; simp at h
    | ok g5 =>
    rw [hsns] at h
    dsimp only at h
    cases hbp : g5.get_bidding_player with
    | error m2 => rw [hbp] at h; dsimp only at h; simp at h
    | ok next =>
    rw [hbp] at h
    dsimp only at h
    injection h with h1
    injection h1 with hg hs
    rw [← hg]
    obtain ⟨count, ps', rest, up, hdd, hg5p, hg5pile, hg5bit, hg5rit⟩ :=
      start_new_set_ok dk _ g5 hsns
    obtain ⟨hddlen, hddentry⟩ := deal_decks_spec _ _ _ _ _ hdd
    have halive : ∀ v, AliveIdxL ps' v
        ↔ AliveIdxL (Game.round_shifted g2.remove_lifes).players v := by
      intro v
      constructor
      · rintro ⟨e', he', hl'⟩
        obtain ⟨e, he, -, hl, -, -⟩ := hddentry v e' he'
        exact ⟨e, he, by rw [← hl]; exact hl'⟩
      · rintro ⟨e, he, hl⟩
        have hvlt : v < ps'.length := by
          have := (List.getElem?_eq_some.1 he).1
          omega
        obtain ⟨e', he'⟩ : ∃ e', ps'[v]? = some e' :=
          ⟨_, List.getElem?_eq_getElem hvlt⟩
        obtain ⟨e0, he0, -, hl0, -, -⟩ := hddentry v e' he'
        rw [he] at he0
        injection he0 with he0
        exact ⟨e', he', by rw [hl0, ← he0]; exact hl⟩
    have hkeys5 : ps'.map (fun e => e.1)
        = (Game.round_shifted g2.remove_lifes).players.map (fun e => e.1) := by
      apply List.ext_getElem?
      intro i
      rw [List.getElem?_map, List.getElem?_map]
      cases hpi : ps'[i]? with
      | none =>
        have hge : ps'.length ≤ i := by
          by_contra hlt
          rw [List.getElem?_eq_getElem (by omega)] at hpi
          cases hpi
        rw [List.getElem?_eq_none (by omega)]
      | some e' =>
        obtain ⟨e, he, hk, -, -, -⟩ := hddentry i e' hpi
        rw [he]
        simp [hk]
    have hex : ∃ e, e ∈ (Game.round_shifted g2.remove_lifes).alive_players := by
      cases hap : (Game.round_shifted g2.remove_lifes).alive_players with
      | nil => rw [hap] at hlen; simp at hlen
      | cons a as => exact ⟨a, List.mem_cons_self a as⟩
    obtain ⟨ea, hea⟩ := hex
    obtain ⟨heam, heal⟩ := (mem_alive_players _ ea).1 hea
    obtain ⟨va, hva⟩ := List.mem_iff_getElem?.1 heam
    have hvalt : va < ps'.length := by
      have := (List.getElem?_eq_some.1 hva).1
      omega
    obtain ⟨ea', hva'⟩ : ∃ e', ps'[va]? = some e' :=
      ⟨_, List.getElem?_eq_getElem hvalt⟩
    obtain ⟨ea0, hva0, -, hla0, hba0, -⟩ := hddentry va ea' hva'
    rw [hva] at hva0
    injection hva0 with hva0
    have hstage5 : g5.get_cycle_stage = .Bidding := by
      rw [stage_bidding_iff_exists]
      refine ⟨va, ea', by rw [hg5p]; exact hva', ?_, ?_⟩
      · rw [hla0, ← hva0]
        exact heal
      · exact hba0 (by rw [← hva0]; exact heal)
    have hpile5 : g5.pile = [] := by
      rw [hg5pile]
      rw [show (Game.round_shifted g2.remove_lifes).pile = g2.pile from rfl]
      exact hg2pile
    have hbid5 : ∀ (j v : Nat), g5.bidding_iter.items[j]? = some v →
        ¬ BidAtL g5.players v := by
      intro j v hj
      have hvmem : v ∈ g5.bidding_iter.items := List.mem_iff_getElem?.2 ⟨j, hj⟩
      rw [hg5bit] at hvmem
      obtain ⟨e, he, hl⟩ := (hinvR.mem_iff v).1 hvmem
      have hvlt : v < ps'.length := by
        have := (List.getElem?_eq_some.1 he).1
        omega
      obtain ⟨e', he'⟩ : ∃ e', ps'[v]? = some e' :=
        ⟨_, List.getElem?_eq_getElem hvlt⟩
      obtain ⟨e0, he0, -, hl0, hb0, -⟩ := hddentry v e' he'
      rw [he] at he0
      injection he0 with he0
      rintro ⟨ee, hee, hbee⟩
      rw [hg5p, he'] at hee
      injection hee with hee
      rw [← hee] at hbee
      rw [hb0 (by rw [← he0]; omega)] at hbee
      simp at hbee
    refine ⟨?_, ?_, ?_, ?_, ?_⟩
    · rw [hg5p, hkeys5]
      exact hinvR.keys_nodup
    · rw [hg5bit]
      exact hinvR.items_nodup
    · intro i
      rw [hg5bit, hinvR.mem_iff i, hg5p]
      exact (halive i).symm
    · intro _
      refine ⟨hpile5, ?_⟩
      intro j v hjv
      have hidx5 : g5.bidding_iter.current_index = 0 := by
        rw [hg5bit]
        exact hinvR.dealing_idx hstageR
      constructor
      · intro hlt
        rw [hidx5] at hlt
        omega
      · intro _
        exact hbid5 j v hjv
    · intro hD
      rw [hstage5] at hD
      simp at hD
  rw [if_neg hempty] at h
  by_cases hfull : (g.deal_play t).pile.length = ((g.deal_play t).alive_players).length
  · rw [if_pos hfull] at h
    cases haw : (g.deal_play t).award_points with
    | error m => rw [haw] at h; dsimp only at h; simp at h
    | ok pr =>
    obtain ⟨pile1, g2⟩ := pr
    rw [haw] at h
    dsimp only at h
    obtain ⟨hg2pile, hbit2, hkeys2, hlen2, hentry2⟩ := deal_award_facts g t pile1 g2 haw
    cases hfst : pile1[0]? with
    | none => rw [hfst] at h; dsimp only at h; simp at h
    | some first =>
    rw [hfst] at h
    dsimp only at h
    cases hfi : g2.players.findIdx? (fun e => e.1 == first.player_id) with
    | none => rw [hfi] at h; dsimp only at h; simp at h
    | some idx =>
    rw [hfi] at h
    dsimp only at h
    injection h with h1
    injection h1 with hg hs
    rw [← hg]
    have hstage2 : (Game.round_shifted_to g2 idx).get_cycle_stage
        = g.get_cycle_stage := by
      apply get_cycle_stage_congr
      intro i
      rw [show (Game.round_shifted_to g2 idx).players = g2.players from rfl]
      cases hg2i : g2.players[i]? with
      | none =>
        have hgi : g.players[i]? = none := by
          have hge : g2.players.length ≤ i := by
            by_contra hlt
            rw [List.getElem?_eq_getElem (by omega)] at hg2i
            cases hg2i
          rw [List.getElem?_eq_none (by omega)]
        rw [hgi]
      | some e' =>
        obtain ⟨e0, he0, -, hb, hl⟩ := hentry2 i e' hg2i
        rw [he0]
        simp [hb, hl]
    have halive2 : ∀ v, AliveIdxL g2.players v ↔ AliveIdxL g.players v := by
      intro v
      obtain ⟨-, -, -, -, hent⟩ := deal_award_facts g t pile1 g2 haw
      constructor
      · rintro ⟨e', he', hl'⟩
        obtain ⟨e0, he0, -, -, hl0⟩ := hent v e' he'
        exact ⟨e0, he0, by rw [← hl0]; exact hl'⟩
      · rintro ⟨e0, he0, hl0⟩
        have hvlt : v < g2.players.length := by
          have := (List.getElem?_eq_some.1 he0).1
          omega
        obtain ⟨e', he'⟩ : ∃ e', g2.players[v]? = some e' :=
          ⟨_, List.getElem?_eq_getElem hvlt⟩
        obtain ⟨e1, he1, -, -, hl1⟩ := hent v e' he'
        rw [he0] at he1
        injection he1 with he1
        exact ⟨e', he', by rw [hl1, ← he1]; exact hl0⟩
    have hbt : (Game.round_shifted_to g2 idx).bidding_iter = g.bidding_iter := by
      rw [show (Game.round_shifted_to g2 idx).bidding_iter
          = g2.bidding_iter from rfl, hbit2]
    refine ⟨?_, ?_, ?_, ?_, ?_⟩
    · rw [show (Game.round_shifted_to g2 idx).players = g2.players from rfl, hkeys2]
      exact hinv.keys_nodup
    · rw [hbt]
      exact hinv.items_nodup
    · intro i
      rw [hbt, hinv.mem_iff i,
        show (Game.round_shifted_to g2 idx).players = g2.players from rfl]
      exact (halive2 i).symm
    · intro hB
      rw [hstage2, hstageD] at hB
      simp at hB
    · intro _
      rw [hbt]
      exact hinv.dealing_idx hstageD
  rw [if_neg hfull] at h
  cases hpd : (g.deal_play t).peek_current_dealer with
  | error m2 => rw [hpd] at h; dsimp only at h; simp at h
  | ok od =>
  rw [hpd] at h
  cases od with
  | none =>
    dsimp only at h
    simp at h
  | some next =>
  dsimp only at h
  injection h with h1
  injection h1 with hg hs
  rw [← hg]
  have hdpp : (g.deal_play t).players
      = map_player g.players t.player_id
        (fun p => { p with deck := p.deck.filter (fun c => !(c = t.card)) }) := rfl
  have hdpb : (g.deal_play t).bidding_iter = g.bidding_iter := rfl
  refine ⟨?_, ?_, ?_, ?_, ?_⟩
  · rw [hdpp, map_player_keys]
    exact hinv.keys_nodup
  · rw [hdpb]
    exact hinv.items_nodup
  · intro i
    rw [hdpb, hinv.mem_iff i, hdpp,
      aliveIdxL_map_player _ _ (fun p => { p with deck := p.deck.filter (fun c => !(c = t.card)) })
        (fun pl => rfl) i]
  · intro hB
    rw [stage_deal_play, hstageD] at hB
    simp at hB
  · intro _
    rw [hdpb]
    exact hinv.dealing_idx hstageD

lemma reachable_inv (g : Game) (h : Reachable g) : GameInv g := by
  induction h with
  | init deck names n g hnodup hnew => exact inv_new deck names n g hnodup hnew
  | bid_step g p b g' s hg hstep ih => exact inv_bid g p b g' s ih hstep
  | deal_step dk g t g' s hg hstep ih => exact inv_deal dk g t g' s ih hstep

/-- C4, counterexample: the claimed equivalence fails in the backward
direction.  In the two-player one-card game `gAB2`, reached by two successful
bids from `Game::new(["A", "B"], 1)`, every alive player has a recorded bid
(the stage is Dealing), yet the bidding cursor is not exhausted: the
lap-ending bid already called `bidding_iter.shift()`, so `peek()` returns
`Some(1)`, not `None`. -/
theorem bidding_cursor_counterexample :
    Game.new deck40 ["A", "B"] 1 = .ok (.ok gAB)
    ∧ Game.bid gAB "A" 1 = .ok (gAB1, .ok (.Active "B" [1]))
    ∧ Game.bid gAB1 "B" 1 = .ok (gAB2, .ok (.Ended "A"))
    ∧ (∀ e ∈ gAB2.alive_players, e.2.bid.isSome)
    ∧ gAB2.get_cycle_stage = .Dealing
    ∧ gAB2.bidding_iter.peek = some 1 := by
  refine ⟨by decide, by decide, by decide, by decide, by decide, by decide⟩

/-- C4, amended: in every game state reachable from `Game::new` on distinct
player names through successful `bid`/`deal` calls, an exhausted bidding
cursor (`peek()` returning `None`) implies that every alive player has a
recorded bid (the stage is Dealing); and whenever the stage is Bidding, the
pile is empty.  The converse of the first part is false
(`bidding_cursor_counterexample`). -/
theorem bidding_cursor_amended (g : Game) (hr : Reachable g) :
    (g.bidding_iter.peek = none → ∀ e ∈ g.alive_players, e.2.bid.isSome)
    ∧ (g.get_cycle_stage = .Bidding → g.pile = []) := by
  have hinv := reachable_inv g hr
  constructor
  · intro hpk e he
    by_cases hB : g.get_cycle_stage = .Bidding
    · exfalso
      obtain ⟨i0, e0, hi0, hl0, hb0⟩ := (stage_bidding_iff_exists g).1 hB
      have hi0mem : i0 ∈ g.bidding_iter.items :=
        (hinv.mem_iff i0).2 ⟨e0, hi0, by omega⟩
      obtain ⟨j, hj⟩ := List.mem_iff_getElem?.1 hi0mem
      have hjlt : j < g.bidding_iter.items.length := (List.getElem?_eq_some.1 hj).1
      have hlenle : g.bidding_iter.items.length ≤ g.bidding_iter.current_index := by
        unfold CyclicIterator.peek at hpk
        by_contra hc
        rw [List.getElem?_eq_getElem (by omega)] at hpk
        cases hpk
      obtain ⟨e1, he1, hbs⟩ := ((hinv.bidding_inv hB).2 j i0 hj).1 (by omega)
      rw [hi0] at he1
      injection he1 with he1
      rw [← he1, hb0] at hbs
      simp at hbs
    · have hD : g.get_cycle_stage = .Dealing := by
        by_contra hD
        exact hB ((stage_bidding_iff_not_dealing g).2 hD)
      obtain ⟨hm, hl⟩ := (mem_alive_players g e).1 he
      exact (stage_dealing_iff g).1 hD e hm hl
  · intro hB
    exact (hinv.bidding_inv hB).1

/-- Concrete instance of the amended C4 on the reachable fresh game `gAB`,
discharging the reachability hypothesis of `bidding_cursor_amended`. -/
theorem bidding_cursor_amended_witness :
    (gAB.bidding_iter.peek = none → ∀ e ∈ gAB.alive_players, e.2.bid.isSome)
    ∧ (gAB.get_cycle_stage = .Bidding → gAB.pile = []) :=
  bidding_cursor_amended gAB
    (Reachable.init deck40 ["A", "B"] 1 gAB (by decide) (by decide))

end OhHell
